import Mathlib

/-
Verification of the `Output` resolution engine (boa/core/recipe_output.py).

This file gives a shallow embedding of the `Output` class and its operations:
construction with parent/feature layering, variant application, run-export
propagation, the per-environment solve, and run-export finalization.  The
external collaborators (solver, package-metadata store, native-compiler
resolver, pin-expression evaluator, config merge) are abstracted as function
parameters, bundled in the `Ext` structure, exactly at the interface the
source consumes them.

Python dictionaries are modelled as insertion-ordered association lists
(assignment replaces the value at the existing key's position, otherwise
appends), and in-place mutation of the raw record `d` and of `parent` by
`Output.__init__` is made explicit: the constructor returns the constructed
Output together with the post-states of `d` and `parent`.
-/

set_option maxRecDepth 10000

namespace Boa

/-- Values stored in the heterogeneous recipe dictionaries.  Scalar recipe
values that the core never inspects are collapsed into opaque strings; the
shapes the core does inspect (booleans, numbers, lists of spec strings, the
per-strength run-export mapping, and Python's `None`) are explicit. -/
inductive Val where
  | str (s : String)
  | nat (n : Nat)
  | bool (b : Bool)
  | strList (l : List String)
  | strengthMap (weak strong strong_constrains weak_constrains noarch : List String)
  | null
deriving DecidableEq, Repr

/-- Python truthiness of a `Val` (used for `if d.get(key):` style tests). -/
def Val.truthy : Val → Bool
  | .str s => s ≠ ""
  | .nat n => n ≠ 0
  | .bool b => b
  | .strList l => !l.isEmpty
  | .strengthMap w s sc wc na =>
      !(w.isEmpty && s.isEmpty && sc.isEmpty && wc.isEmpty && na.isEmpty)
  | .null => false

/-- A Python dict with `Val` values: insertion-ordered association list. -/
abbrev Dict := List (String × Val)

/-- Lookup of a key in an association list (`d.get(k)` / `d[k]`). -/
def alookup {α : Type} : List (String × α) → String → Option α
  | [], _ => none
  | (k', v) :: rest, k => if k' = k then some v else alookup rest k

/-- Assignment `d[k] = v` on an association list: replaces the value at the
existing key's position, otherwise appends (Python dict assignment). -/
def aset {α : Type} : List (String × α) → String → α → List (String × α)
  | [], k, v => [(k, v)]
  | (k', v') :: rest, k, v =>
      if k' = k then (k, v) :: rest else (k', v') :: aset rest k v

/-- One `base.update(upd)` step folded over `upd` (Python `dict.update`). -/
def dictUpdate (base upd : Dict) : Dict :=
  upd.foldl (fun b p => aset b p.1 p.2) base

/-- Keys of an association list. -/
def keysOf {α : Type} (d : List (String × α)) : List String := d.map (·.1)

/-- Interpretation of an optional `Val` as a list of strings, used for
`self.sections["build"].get("ignore_run_exports", [])`. -/
def strListOf : Option Val → List String
  | some (.strList l) => l
  | _ => []

/-- Interpretation of an optional `Val` as a string with `""` default. -/
def getStrD : Option Val → String
  | some (.str s) => s
  | _ => ""

/-- Decides whether `pat` occurs at the head of `l`. -/
def startsList : List Char → List Char → Bool
  | _, [] => true
  | [], _ :: _ => false
  | a :: as, b :: bs => a = b && startsList as bs

/-- Decides whether `pat` occurs anywhere inside `l` (substring test). -/
def hasSubList (pat : List Char) : List Char → Bool
  | [] => startsList [] pat
  | c :: rest => startsList (c :: rest) pat || hasSubList pat rest

/-- Substring test on strings (Python `pat in s`). -/
def strHasSub (s pat : String) : Bool := hasSubList pat.toList s.toList

/-- Helper of the whitespace tokenization: accumulates the current token. -/
def splitAux : List Char → List Char → List (List Char)
  | [], acc => [acc.reverse]
  | c :: rest, acc =>
      if c = ' ' then acc.reverse :: splitAux rest [] else splitAux rest (c :: acc)

/-- Python `str.split()`: whitespace-separated tokens, empties dropped. -/
def splitTokens (s : String) : List String :=
  ((splitAux s.toList []).map (fun cs => String.mk cs)).filter (fun t => t ≠ "")

/-- Python `s.startswith(pat)`. -/
def strStarts (s pat : String) : Bool := startsList s.toList pat.toList

/-- Python `s.endswith(pat)`. -/
def strEnds (s pat : String) : Bool := startsList s.toList.reverse pat.toList.reverse

/-- Python `s.replace("-", "_")`. -/
def dashToUnderscore (s : String) : String :=
  String.mk (s.toList.map (fun c => if c = '-' then '_' else c))

/-- ASCII lowering of one character. -/
def charLower (c : Char) : Char :=
  if 65 ≤ c.toNat && c.toNat ≤ 90 then Char.ofNat (c.toNat + 32) else c

/-- Python `s.lower()` (ASCII). -/
def strLower (s : String) : String := String.mk (s.toList.map charLower)

/-- Modelled from the spec: per-package run-export metadata, an optional
record `{weak, strong, strong_constrains, weak_constrains, noarch}` of lists
of constraint strings, read from the installed package's on-disk metadata
(the `read_run_exports` collaborator interface of section 6 of the spec). -/
structure RunExportsInfo where
  weak : List String := []
  strong : List String := []
  strong_constrains : List String := []
  weak_constrains : List String := []
  noarch : List String := []
deriving DecidableEq, Repr

/-- Modelled from the spec: the `CondaBuildSpec` class (`Spec` of the spec's
data model, section 3) is code of this repository that is not under `src/`;
only its uses appear in `recipe_output.py`.  Fields follow the spec's data
model: `raw` (original textual constraint), `name`/`final_name` (parsed
package name, `final_name` after any rewrite), `final` (the textual
constraint actually sent to the solver), `final_version` (optional
`(version, build_string)` bound after a successful solve), `channel`, and
the provenance flags.  `splitted` is the whitespace-split of `raw`, used by
`apply_variant` for the `COMPILER_` sentinel language. -/
structure CondaBuildSpec where
  raw : String
  splitted : List String
  name : String
  final_name : String
  final : String
  final_version : Option (String × String) := none
  channel : Option String := none
  is_pin : Bool := false
  is_pin_compatible : Bool := false
  is_pin_subpackage : Bool := false
  from_run_export : Bool := false
  from_pinnings : Bool := false
  is_inherited : Bool := false
  is_transitive_dependency : Bool := false
  run_exports_info : Option RunExportsInfo := none
deriving DecidableEq, Repr

/-- Modelled from the spec: construction of a `CondaBuildSpec` from a raw
constraint string.  The package name is the first whitespace token; the
pin flags are derived from the presence of a pin expression in the raw
text; `final` starts as the raw text; all other flags start false. -/
def CondaBuildSpec.ofRaw (r : String) : CondaBuildSpec :=
  let sp := splitTokens r
  let n := sp.headD ""
  { raw := r
    splitted := sp
    name := n
    final_name := n
    final := r
    is_pin := strHasSub r "pin_subpackage" || strHasSub r "pin_compatible"
    is_pin_subpackage := strHasSub r "pin_subpackage"
    is_pin_compatible := strHasSub r "pin_compatible" }

/-- Modelled from the spec: a "simple, unqualified spec (no pin/feature
complexity)", the condition under which `append_or_replace` replaces an
existing entry in place. -/
def CondaBuildSpec.is_simple (s : CondaBuildSpec) : Bool := !s.is_pin

/-- Modelled from the spec: the resolved package's unique build identity
(`name-version-buildstring`), the key into the package metadata store. -/
def CondaBuildSpec.final_triplet (s : CondaBuildSpec) : String :=
  match s.final_version with
  | some fv => s.final_name ++ "-" ++ fv.1 ++ "-" ++ fv.2
  | none => s.final_name

/-- Environment names of the requirement lists. -/
inductive EnvName where
  | build
  | host
  | run
  | run_constrained
deriving DecidableEq, Repr

/-- String form of an environment name (the Python dict key). -/
def EnvName.str : EnvName → String
  | .build => "build"
  | .host => "host"
  | .run => "run"
  | .run_constrained => "run_constrained"

/-- Requirement lists per environment (`self.requirements`). -/
structure EnvReqs where
  build : List CondaBuildSpec := []
  host : List CondaBuildSpec := []
  run : List CondaBuildSpec := []
  run_constrained : List CondaBuildSpec := []
deriving DecidableEq, Repr

/-- Reads `self.requirements[env]`. -/
def getEnv (r : EnvReqs) : EnvName → List CondaBuildSpec
  | .build => r.build
  | .host => r.host
  | .run => r.run
  | .run_constrained => r.run_constrained

/-- Writes `self.requirements[env] = l`. -/
def setEnv (r : EnvReqs) : EnvName → List CondaBuildSpec → EnvReqs
  | .build, l => { r with build := l }
  | .host, l => { r with host := l }
  | .run, l => { r with run := l }
  | .run_constrained, l => { r with run_constrained := l }

/-- Declared per-strength run-export lists of an Output (`self.run_exports`). -/
structure RunExports where
  weak : List CondaBuildSpec := []
  strong : List CondaBuildSpec := []
  strong_constrains : List CondaBuildSpec := []
  weak_constrains : List CondaBuildSpec := []
  noarch : List CondaBuildSpec := []
deriving DecidableEq, Repr

/-- One feature declaration: `{name, default, activated?, requirements}`.
The `activated` key is absent before construction resolves it and is written
in place by `Output.__init__` (a mutation of the parent's feature entries). -/
structure Feature where
  name : String
  default : Bool := false
  activated : Option Bool := none
  requirements : List (String × List String) := []
deriving DecidableEq, Repr

/-- The `source` value of a raw record: either a single mapping or a list of
mappings; `__init__` normalizes a single mapping to a one-element list
(`hasattr(source, "keys")`). -/
inductive SourceV where
  | one (m : Dict)
  | many (ms : List Dict)
deriving DecidableEq, Repr

/-- The raw declarative record `d` passed to `Output.__init__`.  Sections
the constructor reads as dictionaries default to empty; `package`, `files`,
`source` and `requirements` distinguish an absent key from a present one
because the constructor branches on (or mutates at) key presence.  The
`features` key, which a raw record may carry, is never read by the
constructor (features come from the parent only). -/
structure RawRecord where
  step_name : String
  package : Option Dict := none
  build : Dict := []
  app : Dict := []
  extra : Dict := []
  test : Dict := []
  files : Option Val := none
  source : Option SourceV := none
  requirements : Option (List (String × List String)) := none
  features : List Feature := []
deriving DecidableEq, Repr

/-- The optional `parent` mapping of `Output.__init__` (`{}` when absent). -/
structure Parent where
  build : Dict := []
  package : Dict := []
  app : Dict := []
  extra : Dict := []
  test : Dict := []
  source : Option SourceV := none
  files : Option Val := none
  features : List Feature := []
deriving DecidableEq, Repr

/-- Session configuration fields the core reads (target subdirs, the variant
mapping).  Everything else in the session config is opaque to this core. -/
structure Config where
  variant : List (String × String) := []
  subdirs_same : Bool := false
  host_subdir : String := ""
  build_subdir : String := ""
deriving DecidableEq, Repr

/-- One resolved package of a solver transaction:
`(name, version, build_string, channel)`. -/
structure PkgRec where
  name : String
  version : String
  build_string : String
  channel : String
deriving DecidableEq, Repr

/-- Result of one external solver invocation: the install list of the
materialized transaction, and whether `fetch_extract_packages` succeeded. -/
structure SolveResult where
  installs : List PkgRec := []
  fetch_ok : Bool := true
deriving DecidableEq, Repr

/-- The external collaborators consumed by the core, at the interfaces of
section 6 of the spec: the native-compiler resolver, the config merge, the
pin-expression evaluator, the two deferred-pin rewriters (closing over the
session's `all_outputs`), the solver (keyed by target subdirectory), the
package cache, the per-package run-export metadata store, the host Python
version, and the build-id of the finalized metadata. -/
structure Ext where
  native_compiler : String → Config → String
  merge_config : Config → List (String × String) → Config
  apply_pin_expressions : String → String → String
  eval_pin_subpackage : CondaBuildSpec → CondaBuildSpec
  eval_pin_compatible : CondaBuildSpec → List CondaBuildSpec → List CondaBuildSpec → CondaBuildSpec
  solve : String → List String → SolveResult
  pkg_cache : String → String
  read_run_exports : String → String → Option RunExportsInfo
  sys_version : String
  build_id : String

/-- Merged sections of an Output (`self.sections`). -/
structure Sections where
  build : Dict := []
  package : Dict := []
  app : Dict := []
  extra : Dict := []
  test : Dict := []
  files : Option Val := none
  source : List Dict := []
  features : List Feature := []
deriving DecidableEq, Repr

/-- One buildable artifact (the `Output` class). -/
structure Output where
  selected_features : List (String × Bool) := []
  data : RawRecord
  config : Config := {}
  /-- The `pin_run_as_build` table of the `conda_build_config` mapping:
  package name (hyphens normalized to underscores) to an opaque
  pin-expression configuration token. -/
  conda_build_config : List (String × String) := []
  name : String
  version : Option String := none
  build_string : Option String := none
  build_number : Nat := 0
  noarch : Bool := false
  is_first : Bool := false
  is_package : Bool := false
  sections : Sections := {}
  required_steps : List String := []
  feature_map : List (String × Feature) := []
  requirements : EnvReqs := {}
  transactions : List (String × String) := []
  parent : Parent := {}
  run_exports : RunExports := {}
  variant : Option (List (String × String)) := none
  differentiating_keys : List String := []
  differentiating_variant : List String := []
  final_build_id : Option String := none
deriving DecidableEq, Repr

/-- Feature activation: `selected_features[name]` when the caller selected
the feature, else the declared default (`feat.get("default", False)`). -/
def resolveActivated (selected : List (String × Bool)) (f : Feature) : Bool :=
  match alookup selected f.name with
  | some b => b
  | none => f.default

/-- Post-state of the parent's `features` list after the activation loop of
`__init__`: the loop runs over `feature_map`, whose value for each name is
the last list entry with that name, and writes `feat["activated"]` in place
on exactly those entries. -/
def setActivated (selected : List (String × Bool)) : List Feature → List Feature
  | [] => []
  | f :: rest =>
      let f' := if rest.all (fun g => g.name ≠ f.name) then
        { f with activated := some (resolveActivated selected f) } else f
      f' :: setActivated selected rest

/-- The `feature_map` after activation resolution: a name-keyed map built
from the features list (later entries replace earlier values in place, as a
Python dict comprehension does), each value with `activated` resolved. -/
def buildFeatureMap (selected : List (String × Bool)) (fs : List Feature) :
    List (String × Feature) :=
  (fs.foldl (fun m f => aset m f.name f) []).map
    (fun p => (p.1, { p.2 with activated := some (resolveActivated selected p.2) }))

/-- Concatenated extra requirements that activated features contribute to
environment `env`, in feature-map order (`f["requirements"].get(env, [])`
for each activated feature with a non-empty requirements mapping). -/
def featAdd (fm : List (String × Feature)) (env : String) : List String :=
  fm.foldl
    (fun acc p =>
      if p.2.activated.getD false && !p.2.requirements.isEmpty then
        acc ++ ((alookup p.2.requirements env).getD [])
      else acc)
    []

/-- The environment keys whose lists the feature loop extends. -/
def envKeys : List String := ["build", "host", "run", "run_constrained"]

/-- Net effect of the feature-requirements loop on the shallow-copied
requirements mapping: each environment's list is the original list followed
by the activated features' contributions, with the key set only when the
resulting list is non-empty. -/
def mergedReqs (base : List (String × List String)) (fm : List (String × Feature)) :
    List (String × List String) :=
  envKeys.foldl
    (fun cur env =>
      let v := ((alookup base env).getD []) ++ featAdd fm env
      if v ≠ [] then aset cur env v else cur)
    base

/-- Normalization of the `run_exports` declaration of the build section: a
flat list is interpreted as `weak`; a per-strength mapping is read per
strength with empty default; a falsy or absent value yields no exports. -/
def normalizeRunExports (v : Option Val) : RunExports :=
  match v with
  | some w =>
      if w.truthy then
        match w with
        | .strList l => { weak := l.map CondaBuildSpec.ofRaw }
        | .strengthMap wk st sc wc na =>
            { weak := wk.map CondaBuildSpec.ofRaw
              strong := st.map CondaBuildSpec.ofRaw
              strong_constrains := sc.map CondaBuildSpec.ofRaw
              weak_constrains := wc.map CondaBuildSpec.ofRaw
              noarch := na.map CondaBuildSpec.ofRaw }
        | _ => {}
      else {}
  | none => {}

/-- The `Output` constructor (`Output.__init__`).  Returns the constructed
Output together with the post-states of the raw record `d` and of `parent`,
making the constructor's in-place mutations explicit: `d["source"]` is
assigned (the key is created when absent), the requirement lists present in
`d["requirements"]` are extended in place with activated features'
contributions (the shallow dict copy shares the list objects), and the
parent's feature entries reachable from `feature_map` get their
`activated` key written. -/
def Output.init (d : RawRecord) (config : Config) (parent : Parent)
    (conda_build_config : List (String × String))
    (selected_features : List (String × Bool)) : Output × RawRecord × Parent :=
  -- self.data["source"] = d.get("source", parent.get("source", {}))
  let srcVal : SourceV := (d.source.orElse (fun _ => parent.source)).getD (SourceV.one [])
  let d1 : RawRecord := { d with source := some srcVal }
  let name0 := d.step_name
  let version := d.package.map (fun p => getStrD (alookup p "version"))
  let build_string := d.package.bind (fun p =>
    match alookup p "build_string" with
    | some (.str s) => some s
    | _ => none)
  let build_number := match alookup d.build "number" with
    | some (.nat n) => n
    | _ => 0
  let noarch := match alookup d.build "noarch" with
    | some v => v.truthy
    | none => false
  let secBuild := dictUpdate (dictUpdate [] parent.build) d.build
  let secPackage := dictUpdate (dictUpdate [] parent.package) ((d.package).getD [])
  let secApp := dictUpdate (dictUpdate [] parent.app) d.app
  let secExtra := dictUpdate (dictUpdate [] parent.extra) d.extra
  let secTest := dictUpdate (dictUpdate [] parent.test) d.test
  let secSource : List Dict := match srcVal with
    | .one m => [m]
    | .many ms => ms
  let required_steps := secSource.foldr
    (fun s acc =>
      match alookup s "step" with
      | some (.str st) => st :: acc
      | _ => acc)
    []
  let featuresAct := setActivated selected_features parent.features
  let fm := buildFeatureMap selected_features parent.features
  let isStatic := match alookup fm "static" with
    | some f => f.activated.getD false
    | none => false
  let name := if isStatic then name0 ++ "-static" else name0
  let baseReqs := d.requirements.getD []
  let selfReqs := mergedReqs baseReqs fm
  -- in-place extension of the requirement lists that exist in d
  let d2 : RawRecord := { d1 with requirements :=
    (d.requirements.map (fun m => m.map (fun p =>
      if p.1 ∈ envKeys then (p.1, p.2 ++ featAdd fm p.1) else p))) }
  let reqs : EnvReqs :=
    { build := ((alookup selfReqs "build").getD []).map CondaBuildSpec.ofRaw
      host := ((alookup selfReqs "host").getD []).map CondaBuildSpec.ofRaw
      run := ((alookup selfReqs "run").getD []).map CondaBuildSpec.ofRaw
      run_constrained :=
        ((alookup selfReqs "run_constrained").getD []).map CondaBuildSpec.ofRaw }
  let sections : Sections :=
    { build := secBuild, package := secPackage, app := secApp, extra := secExtra
      test := secTest, files := d.files, source := secSource, features := featuresAct }
  let parent' : Parent := { parent with features := featuresAct }
  (⟨selected_features, d2, config, conda_build_config, name, version, build_string,
    build_number, noarch, false, d.package.isSome, sections, required_steps, fm,
    reqs, [], parent', normalizeRunExports (alookup secBuild "run_exports"),
    none, [], [], none⟩, d2, parent')

/-! ## Variant application (`Output.apply_variant`) -/

/-- The first two loops of `apply_variant`: every build/host Spec whose
normalized name (`name.replace("-", "_")`) is a key of the variant mapping
is replaced by a freshly constructed Spec `"<name> <pinned-value>"` with
`from_pinnings` set and `is_inherited` carried over. -/
def pinFromVariant (variant : List (String × String))
    (l : List CondaBuildSpec) : List CondaBuildSpec :=
  l.map (fun r =>
    let vname := dashToUnderscore r.name
    match alookup variant vname with
    | some v =>
        { CondaBuildSpec.ofRaw (r.name ++ " " ++ v) with
          from_pinnings := true, is_inherited := r.is_inherited }
    | none => r)

/-- Compiler injection for one build entry: acts when the template Spec's
name carries the `COMPILER_` sentinel.  The language is the lowered second
token of the template Spec; an explicit (truthy) `<lang>_compiler` variant
entry yields `"<compiler>_<target_platform>"`, else the native-compiler
resolver's default is used, suffixed with the target platform; a truthy
`<lang>_compiler_version` appends a `" <version>*"` wildcard.  A missing
second token or a missing `target_platform` key raises. -/
def injectOne (ext : Ext) (cfg : Config) (variant : List (String × String))
    (r cur : CondaBuildSpec) : Except String CondaBuildSpec :=
  if strStarts r.name "COMPILER_" then
    match r.splitted[1]? with
    | none => .error "IndexError: list index out of range"
    | some t =>
      let lang := strLower t
      match alookup variant "target_platform" with
      | none => .error "KeyError: target_platform"
      | some target =>
        let compiler := match alookup variant (lang ++ "_compiler") with
          | some c =>
              if c = "" then ext.native_compiler lang cfg ++ "_" ++ target
              else c ++ "_" ++ target
          | none => ext.native_compiler lang cfg ++ "_" ++ target
        let fin := match alookup variant (lang ++ "_compiler_version") with
          | some ver => if ver = "" then compiler else compiler ++ " " ++ ver ++ "*"
          | none => compiler
        .ok { cur with final := fin, from_pinnings := true }
  else .ok cur

/-- The compiler-injection loop over the zipped (template entry, current
copied entry) build list. -/
def injectCompilers (ext : Ext) (cfg : Config) (variant : List (String × String)) :
    List (CondaBuildSpec × CondaBuildSpec) → Except String (List CondaBuildSpec)
  | [] => .ok []
  | (r, cur) :: rest =>
      match injectOne ext cfg variant r cur with
      | .error e => .error e
      | .ok cur' =>
          match injectCompilers ext cfg variant rest with
          | .error e => .error e
          | .ok rest' => .ok (cur' :: rest')

/-- Collects `variant[k]` for the differentiating keys, in order. -/
def lookupAll (variant : List (String × String)) :
    List String → Except String (List String)
  | [] => .ok []
  | k :: rest =>
      match alookup variant k with
      | none => .error "KeyError: differentiating key"
      | some v =>
          match lookupAll variant rest with
          | .error e => .error e
          | .ok vs => .ok (v :: vs)

/-- Variant application (`Output.apply_variant`).  The first component of
the result is the post-state of the template Output: every write in the
source targets the deep copy, so the template is returned unchanged.  The
second component is the specialized copy, or the raised error: a
`COMPILER_` Spec in the host requirements raises after compiler injection
of the build list. -/
def Output.apply_variant (o : Output) (ext : Ext)
    (variant : List (String × String)) (dk : List String) :
    Output × Except String Output :=
  (o,
    match injectCompilers ext o.config variant
        (o.requirements.build.zip (pinFromVariant variant o.requirements.build)) with
    | .error e => .error e
    | .ok b2 =>
        if o.requirements.host.any (fun r => strStarts r.name "COMPILER_") then
          .error "Compiler should be in build section"
        else
          match lookupAll variant dk with
          | .error e => .error e
          | .ok dv =>
              .ok { o with
                variant := some variant
                requirements := { o.requirements with build := b2, host := pinFromVariant variant o.requirements.host }
                config := ext.merge_config o.config variant
                differentiating_keys := dk
                differentiating_variant := dv })

/-! ## Run-export propagation (`Output.propagate_run_exports`) -/

/-- One step of the run-export collection loop: transitive dependencies and
recipe-ignored names are skipped; a Spec with no bound `final_version` is
skipped (reported, not an error); a `pin_run_as_build` config pin
synthesizes a `weak` export from the pin expression evaluated against the
resolved version; otherwise the installed package's run-export metadata is
looked up by its build identity, absence meaning no exports.  Returns the
(possibly updated) Spec and its contributed export records. -/
def collectStep (cfgPins : List (String × String)) (ignore : List String)
    (ext : Ext) (pc : String) (s : CondaBuildSpec) :
    CondaBuildSpec × List RunExportsInfo :=
  if s.is_transitive_dependency then (s, [])
  else if ignore.contains s.name then (s, [])
  else
    match s.final_version with
    | none => (s, [])
    | some fv =>
        match alookup cfgPins (dashToUnderscore s.name) with
        | some pinCfg =>
            let info : RunExportsInfo :=
              { weak := [s.final_name ++ " " ++ ext.apply_pin_expressions fv.1 pinCfg] }
            ({ s with run_exports_info := some info }, [info])
        | none =>
            match ext.read_run_exports pc s.final_triplet with
            | some info => ({ s with run_exports_info := some info }, [info])
            | none => ({ s with run_exports_info := none }, [])

/-- The run-export collection loop over an environment's requirement list:
per-Spec updates and the concatenated collected export records. -/
def collectPhase (cfgPins : List (String × String)) (ignore : List String)
    (ext : Ext) (pc : String) (l : List CondaBuildSpec) :
    List CondaBuildSpec × List RunExportsInfo :=
  ((l.map (collectStep cfgPins ignore ext pc)).map (·.1),
   ((l.map (collectStep cfgPins ignore ext pc)).map (·.2)).flatten)

/-- Index of the first list entry satisfying `p` (the scan of the
`append_or_replace` loop). -/
def firstIdx {α : Type} (p : α → Bool) : List α → Option Nat
  | [] => none
  | a :: rest => if p a then some 0 else (firstIdx p rest).map (· + 1)

/-- The nested `append_or_replace` insertion on one requirement list: the
constructed Spec is tagged `from_run_export`; the first existing entry with
the same resolved name that is simple is replaced in place, otherwise the
new Spec is appended. -/
def append_or_replace_list (l : List CondaBuildSpec) (raw : String) :
    List CondaBuildSpec :=
  let sp := { CondaBuildSpec.ofRaw raw with from_run_export := true }
  match firstIdx (fun r => r.final_name == sp.name && r.is_simple) l with
  | some i => l.set i sp
  | none => l ++ [sp]

/-- The nested `append_or_replace(env, spec)` of `propagate_run_exports`. -/
def append_or_replace (reqs : EnvReqs) (env : EnvName) (raw : String) : EnvReqs :=
  setEnv reqs env (append_or_replace_list (getEnv reqs env) raw)

/-- For one collected export record after a `build` solve on a non-noarch
Output: `strong` entries go to `host` and `run`, `weak` entries to `host`,
`strong_constrains` entries to `run_constrained`. -/
def routeBuildRex (rq : EnvReqs) (rex : RunExportsInfo) : EnvReqs :=
  let rq := rex.strong.foldl
    (fun rq x => append_or_replace (append_or_replace rq .host x) .run x) rq
  let rq := rex.weak.foldl (fun rq x => append_or_replace rq .host x) rq
  rex.strong_constrains.foldl (fun rq x => append_or_replace rq .run_constrained x) rq

/-- For one collected export record after a `host` solve on a non-noarch
Output: `strong` and `weak` entries go to `run`, `strong_constrains` and
`weak_constrains` entries to `run_constrained`. -/
def routeHostRex (rq : EnvReqs) (rex : RunExportsInfo) : EnvReqs :=
  let rq := rex.strong.foldl (fun rq x => append_or_replace rq .run x) rq
  let rq := rex.weak.foldl (fun rq x => append_or_replace rq .run x) rq
  let rq := rex.strong_constrains.foldl
    (fun rq x => append_or_replace rq .run_constrained x) rq
  rex.weak_constrains.foldl (fun rq x => append_or_replace rq .run_constrained x) rq

/-- The dispatch of `propagate_run_exports` on the collected export records:
after a `build` solve each record is routed (nothing when the Output is
noarch); after a `host` solve each record is routed, a noarch Output
forwarding only the `noarch`-strength entries, into `run`. -/
def route (noarch : Bool) (env : EnvName) (collected : List RunExportsInfo)
    (reqs : EnvReqs) : EnvReqs :=
  let reqs := if env == .build then
    collected.foldl (fun rq rex => if noarch then rq else routeBuildRex rq rex) reqs
  else reqs
  if env == .host then
    collected.foldl
      (fun rq rex =>
        if noarch then rex.noarch.foldl (fun rq x => append_or_replace rq .run x) rq
        else routeHostRex rq rex)
      reqs
  else reqs

/-- The recipe's declared ignore list for run exports
(`self.sections["build"].get("ignore_run_exports", [])`). -/
def Output.ignoreRunExports (o : Output) : List String :=
  strListOf (alookup o.sections.build "ignore_run_exports")

/-- Run-export propagation (`Output.propagate_run_exports(env, pkg_cache)`):
collect the export records of the just-solved environment's Specs, then
insert them into the later environments of this Output per the routing
rules. -/
def Output.propagate_run_exports (o : Output) (ext : Ext) (env : EnvName)
    (pc : String) : Output :=
  { o with requirements :=
      (route o.noarch env
        (collectPhase o.conda_build_config o.ignoreRunExports ext pc
          (getEnv o.requirements env)).2
        (setEnv o.requirements env
          (collectPhase o.conda_build_config o.ignoreRunExports ext pc
            (getEnv o.requirements env)).1)) }

/-! ## Run-export finalization (`Output.set_final_build_id`) -/

/-- Finalization of one declared run-export list (one strength).  The
Python loop iterates the list, and at the first entry whose target name is
a name-prefix of a `-static` Output's own name it clears the whole list in
place (which also ends the iteration); otherwise every entry is
pin-subpackage-evaluated in place.  The list therefore becomes empty as
soon as any entry matches. -/
def processRunExportList (oname : String) (ext : Ext)
    (l : List CondaBuildSpec) : List CondaBuildSpec :=
  if l.any (fun x => strEnds oname "-static" && strStarts oname x.name) then []
  else l.map ext.eval_pin_subpackage

/-- Finalization of an Output's own declared run-exports
(`Output.set_final_build_id`): records the final build id, finalizes each
strength list (with the `-static` self-export clearing above), and writes
the non-empty finalized lists (or `None`) back into `d["build"]`. -/
def Output.set_final_build_id (o : Output) (ext : Ext) : Output :=
  let w := processRunExportList o.name ext o.run_exports.weak
  let st := processRunExportList o.name ext o.run_exports.strong
  let sc := processRunExportList o.name ext o.run_exports.strong_constrains
  let wc := processRunExportList o.name ext o.run_exports.weak_constrains
  let na := processRunExportList o.name ext o.run_exports.noarch
  let allEmpty := w.isEmpty && st.isEmpty && sc.isEmpty && wc.isEmpty && na.isEmpty
  let vfinal := if allEmpty then Val.null else
    Val.strengthMap (w.map (·.final)) (st.map (·.final)) (sc.map (·.final))
      (wc.map (·.final)) (na.map (·.final))
  { o with
    final_build_id := some ext.build_id
    run_exports :=
      { weak := w, strong := st, strong_constrains := sc
        weak_constrains := wc, noarch := na }
    data := { o.data with build := aset o.data.build "run_exports" vfinal } }

/-! ## The per-environment solve (`Output._solve_env`) -/

/-- In-place rewriting of deferred constraint kinds before a solve:
`pin_subpackage` Specs are evaluated against the session's Outputs, and,
for the `run` environment only, `pin_compatible` Specs are evaluated
against the already-solved build and host requirement lists. -/
def evalSpecs (ext : Ext) (env : EnvName) (o : Output) : List CondaBuildSpec :=
  (getEnv o.requirements env).map (fun s =>
    let s := if s.is_pin_subpackage then ext.eval_pin_subpackage s else s
    if env == .run && s.is_pin_compatible then
      ext.eval_pin_compatible s o.requirements.build o.requirements.host
    else s)

/-- Target subdirectory of a solve: `host`/`run` use the host subdir
unless the session declares build and host subdirs identical; `build`
always uses the build subdir. -/
def subdirFor (o : Output) (env : EnvName) : String :=
  if (env == .host || env == .run) && !o.config.subdirs_same then
    o.config.host_subdir
  else o.config.build_subdir

/-- Index of the last list entry satisfying `p` (the Python
`{s.final_name: s for s in specs}` comprehension keeps, per name, the last
Spec, which is the object the solver result is bound onto). -/
def lastIdx {α : Type} (p : α → Bool) : List α → Option Nat
  | [] => none
  | a :: rest =>
      match lastIdx p rest with
      | some i => some (i + 1)
      | none => if p a then some 0 else none

/-- Replaces the element at index `i` (out-of-range indices unchanged). -/
def listModify {α : Type} (f : α → α) : List α → Nat → List α
  | [], _ => []
  | a :: rest, 0 => f a :: rest
  | a :: rest, n + 1 => a :: listModify f rest n

/-- Binding of one resolved package onto the requirement list: a package
whose name matches an authored Spec (the last with that `final_name`, per
the name-keyed map) binds that Spec's `final_version` and `channel`; an
unmatched package is appended as a new transitive-dependency Spec. -/
def bindOne (orig : List CondaBuildSpec) (st : List CondaBuildSpec)
    (p : PkgRec) : List CondaBuildSpec :=
  match lastIdx (fun s => s.final_name == p.name) orig with
  | some i =>
      listModify
        (fun s => { s with final_version := some (p.version, p.build_string)
                           channel := some p.channel })
        st i
  | none =>
      st ++ [{ CondaBuildSpec.ofRaw p.name with
               is_transitive_dependency := true
               final_version := some (p.version, p.build_string)
               channel := some p.channel }]

/-- Binding of a whole install list onto the requirement list. -/
def bindInstalls (specs : List CondaBuildSpec) (installs : List PkgRec) :
    List CondaBuildSpec :=
  installs.foldl (bindOne specs) specs

/-- Core state update of one environment solve (`Output._solve_env`): the
deferred pins are evaluated, the finalized textual constraints are
persisted into `d["requirements"][env]`, the external solver is invoked for
the environment's textual specs, its install list is bound back onto the
requirement list, and the transaction's package cache is recorded. -/
def solvedOutput (o : Output) (ext : Ext) (env : EnvName)
    (dreqs : List (String × List String)) : Output :=
  { o with
    data := { o.data with
      requirements :=
        some (aset dreqs env.str ((evalSpecs ext env o).map (·.final))) }
    requirements := setEnv o.requirements env
      (bindInstalls (evalSpecs ext env o)
        (ext.solve (subdirFor o env) ((evalSpecs ext env o).map (·.final))).installs)
    transactions := aset o.transactions env.str (ext.pkg_cache (subdirFor o env)) }

/-- One environment solve (`Output._solve_env`), dispatching on the skip
guard, the KeyError, and the download failure around `solvedOutput`. -/
def Output.solve_env (o : Output) (ext : Ext) (env : EnvName) :
    Except String Output :=
  if (getEnv o.requirements env).isEmpty then .ok o
  else
    match o.data.requirements with
    | none => .error "KeyError: requirements"
    | some dreqs =>
        if !(ext.solve (subdirFor o env) ((evalSpecs ext env o).map (·.final))).fetch_ok
        then .error "Did not succeed in downloading packages."
        else .ok (if env == .build || env == .host then
          (solvedOutput o ext env dreqs).propagate_run_exports ext env
            (ext.pkg_cache (subdirFor o env))
        else solvedOutput o ext env dreqs)

/-! ## The solve orchestrator (`Output.finalize_solve`) -/

/-- The python-version backfill loop of `finalize_solve`: when the variant
does not pin `python`, every `python`-named Spec of the solved build and
host lists writes its resolved version into the variant (reading an
unresolved Spec's `final_version` raises). -/
def backfillLoop : List CondaBuildSpec → Output → Except String Output
  | [], o => .ok o
  | r :: rest, o =>
      match r.final_version with
      | some fv =>
          backfillLoop rest
            { o with config :=
              { o.config with variant := aset o.config.variant "python" fv.1 } }
      | none => .error "AttributeError: final_version"

/-- The python-version backfill of `finalize_solve`. -/
def backfillPython (ext : Ext) (o : Output) : Except String Output :=
  if (alookup o.config.variant "python").isSome then .ok o
  else
    match backfillLoop
      ((o.requirements.build ++ o.requirements.host).filter
        (fun r => r.name == "python")) o with
    | .error e => .error e
    | .ok o1 =>
        if (alookup o1.config.variant "python").isNone then
          .ok { o1 with config :=
            { o1.config with variant := aset o1.config.variant "python" ext.sys_version } }
        else .ok o1

/-- The solve orchestrator (`Output.finalize_solve`): solves `build`, then
`host`, then `run` (never `run_constrained`), then backfills the `python`
variant key and publishes the effective variant. -/
def Output.finalize_solve (o : Output) (ext : Ext) : Except String Output :=
  match o.solve_env ext .build with
  | .error e => .error e
  | .ok o1 =>
      match o1.solve_env ext .host with
      | .error e => .error e
      | .ok o2 =>
          match o2.solve_env ext .run with
          | .error e => .error e
          | .ok o3 =>
              match backfillPython ext o3 with
              | .error e => .error e
              | .ok o4 => .ok { o4 with variant := some o4.config.variant }

/-! ## Derived predicates used by the statements -/

instance {ε α : Type} [DecidableEq ε] [DecidableEq α] : DecidableEq (Except ε α) :=
  fun x y =>
    match x, y with
    | .ok a, .ok b =>
        if h : a = b then .isTrue (by rw [h])
        else .isFalse (fun hc => h (by injection hc))
    | .error a, .error b =>
        if h : a = b then .isTrue (by rw [h])
        else .isFalse (fun hc => h (by injection hc))
    | .ok _, .error _ => .isFalse (fun hc => by injection hc)
    | .error _, .ok _ => .isFalse (fun hc => by injection hc)

/-- Every Spec of the list that is not shadowed by a later Spec with the
same resolved name has a bound `final_version`.  This is the exact shape
of what the name-keyed `spec_map` binding guarantees: per `final_name`,
only the last Spec of the list is the binding target, so an earlier
same-named Spec may stay unbound. -/
def lastBound (l : List CondaBuildSpec) : Prop :=
  ∀ (i : Nat) (s : CondaBuildSpec), l[i]? = some s →
    (∀ (j : Nat) (t : CondaBuildSpec), i < j → l[j]? = some t →
      t.final_name ≠ s.final_name) →
    s.final_version.isSome = true

/-- The solver-contract assumption for one environment solve: the install
list the external solver returns for this environment's textual specs
covers every requested Spec's resolved name. -/
def stage_cov (ext : Ext) (env : EnvName) (o : Output) : Prop :=
  ∀ s ∈ evalSpecs ext env o,
    ∃ p ∈ (ext.solve (subdirFor o env)
      ((evalSpecs ext env o).map (·.final))).installs, p.name = s.final_name

instance (ext : Ext) (env : EnvName) (o : Output) : Decidable (stage_cov ext env o) := by
  unfold stage_cov; infer_instance

/-- Variant keys consulted by `apply_variant` for one build/host entry: the
entry's normalized name, and, for a `COMPILER_` entry, the language's
compiler, compiler-version and target-platform keys. -/
def entryKeys (r : CondaBuildSpec) : List String :=
  (dashToUnderscore r.name) ::
    (if strStarts r.name "COMPILER_" then
      match r.splitted[1]? with
      | some t => [strLower t ++ "_compiler", strLower t ++ "_compiler_version",
                   "target_platform"]
      | none => []
    else [])

/-- All variant keys consulted by `apply_variant` for an Output's
requirement entries. -/
def relevantKeys (o : Output) : List String :=
  ((o.requirements.build ++ o.requirements.host).map entryKeys).flatten

/-- Nodup condition on the keys of an association list (the domain of the
Python dicts this file's association lists stand for). -/
def keysNodup {α : Type} (d : List (String × α)) : Prop := (keysOf d).Nodup

instance {α : Type} (d : List (String × α)) : Decidable (keysNodup d) := by
  unfold keysNodup; infer_instance

/-! ## Concrete example inputs used by the witnesses and counterexamples -/

/-- A concrete collaborator bundle: an identity-like instantiation whose
solver always resolves the single package `a 1 0`. -/
def extEx : Ext :=
  { native_compiler := fun _ _ => "cc"
    merge_config := fun c _ => c
    apply_pin_expressions := fun v _ => v
    eval_pin_subpackage := id
    eval_pin_compatible := fun s _ _ => s
    solve := fun _ _ => { installs := [⟨"a", "1", "0", "ch"⟩], fetch_ok := true }
    pkg_cache := fun _ => "cache"
    read_run_exports := fun _ _ => none
    sys_version := "3.9.1"
    build_id := "bid" }

/-- An Output with an authored `run_constrained` requirement and nothing
else (C1 counterexample input). -/
def oC1cex : Output :=
  { data := { step_name := "p", requirements := some [("run_constrained", ["x"])] }
    name := "p"
    requirements := { run_constrained := [CondaBuildSpec.ofRaw "x"] } }

/-- The result of the C1 counterexample's successful solve. -/
def oC1cexFinal : Output := ((oC1cex.finalize_solve extEx).toOption).getD oC1cex

/-- An Output with one authored build requirement `a` (C1 witness input). -/
def oC1w : Output :=
  { data := { step_name := "q", requirements := some [("build", ["a"])] }
    name := "q"
    requirements := { build := [CondaBuildSpec.ofRaw "a"] } }

/-- The C1 witness Output after the build solve. -/
def oC1wB : Output := ((oC1w.solve_env extEx .build).toOption).getD oC1w

/-- The C1 witness Output after the host solve. -/
def oC1wH : Output := ((oC1wB.solve_env extEx .host).toOption).getD oC1wB

/-- The C1 witness Output after the whole `finalize_solve`. -/
def oC1wFinal : Output := ((oC1w.finalize_solve extEx).toOption).getD oC1w

/-- A collaborator bundle whose solver always resolves the single package
`b 1 0` (C1 duplicate-name counterexample input). -/
def extDup : Ext :=
  { extEx with solve := fun _ _ => { installs := [⟨"b", "1", "0", "ch"⟩], fetch_ok := true } }

/-- An Output with two authored build requirements both named `b` (C1
duplicate-name counterexample input). -/
def oC1dup : Output :=
  { data := { step_name := "r", requirements := some [("build", ["b", "b"])] }
    name := "r"
    requirements := { build := [CondaBuildSpec.ofRaw "b", CondaBuildSpec.ofRaw "b"] } }

/-- The duplicate-name counterexample Output after its successful solve. -/
def oC1dupFinal : Output := ((oC1dup.finalize_solve extDup).toOption).getD oC1dup

/-- A collaborator bundle whose solver reports success with an empty
install list (C1 solver-contract counterexample input). -/
def extNoCov : Ext :=
  { extEx with solve := fun _ _ => { installs := [], fetch_ok := true } }

/-- The C1 witness Output solved against the non-covering solver. -/
def oC1ncFinal : Output := ((oC1w.finalize_solve extNoCov).toOption).getD oC1w

/-- A `-static` Output declaring a self-export `foo` and an unrelated
export `bar` in its own weak run-exports (C3 failing input). -/
def oC3 : Output :=
  { data := { step_name := "foo" }
    name := "foo-static"
    run_exports := { weak := [CondaBuildSpec.ofRaw "foo", CondaBuildSpec.ofRaw "bar"] } }

/-- A concrete requirement list for the C4 witness. -/
def reqsC4 : EnvReqs := { run := [CondaBuildSpec.ofRaw "other"] }

/-- A raw record with one authored build requirement and no `source` key
(C5 counterexample input: constructing mutates it). -/
def dC5 : RawRecord := { step_name := "p", requirements := some [("build", ["zlib"])] }

/-- A parent with one default-activated feature contributing a build
requirement (C5 counterexample input: constructing mutates its entries). -/
def pC5 : Parent :=
  { features := [{ name := "f", default := true
                   requirements := [("build", ["boost"])] }] }

/-- A raw record that already has a `source` key (C5 witness input). -/
def dC5w : RawRecord :=
  { step_name := "p", source := some (SourceV.one [("url", Val.str "u")]) }

/-- A raw record whose own build section sets key `a` and which carries a
`features` declaration of its own (C6 inputs). -/
def dC6 : RawRecord :=
  { step_name := "p", build := [("a", Val.str "1")]
    features := [{ name := "g", default := true }] }

/-- A parent with build keys `a` and `b` and a `files` section the claim
expects to survive the merge (C6 counterexample input). -/
def pC6 : Parent :=
  { build := [("a", Val.str "0"), ("b", Val.str "2")]
    files := some (Val.str "pf") }

/-- An Output exercising pinning, compiler injection and untouched entries
(C7 witness input). -/
def oC7 : Output :=
  { data := { step_name := "A" }
    name := "A"
    requirements :=
      { build := [CondaBuildSpec.ofRaw "python", CondaBuildSpec.ofRaw "COMPILER_C c"]
        host := [CondaBuildSpec.ofRaw "zlib"]
        run := [CondaBuildSpec.ofRaw "r"] } }

/-- A first variant for the C7 witness. -/
def vC7a : List (String × String) := [("python", "3.8"), ("target_platform", "linux-64")]

/-- A second variant differing from the first only on a key no requirement
entry consults. -/
def vC7b : List (String × String) :=
  [("python", "3.8"), ("target_platform", "linux-64"), ("unrelated", "x")]

/-- The C7 witness result for the first variant. -/
def cC7a : Output := (((oC7.apply_variant extEx vC7a []).2).toOption).getD oC7

/-- The C7 witness result for the second variant. -/
def cC7b : Output := (((oC7.apply_variant extEx vC7b []).2).toOption).getD oC7

/-- An Output with a `COMPILER_` Spec declared in host (C8 witness input). -/
def oC8 : Output :=
  { data := { step_name := "A" }
    name := "A"
    requirements := { host := [CondaBuildSpec.ofRaw "COMPILER_CXX cxx"] } }

/-- An Output whose build carries the `COMPILER_` sentinel for language `c`
(the C9 scenario input). -/
def oC9 : Output :=
  { data := { step_name := "A" }
    name := "A"
    requirements := { build := [CondaBuildSpec.ofRaw "COMPILER_C c"] } }

/-- A host Spec resolved to `libfoo 2.0 h1` (C10 witness input). -/
def specLibfoo : CondaBuildSpec :=
  { CondaBuildSpec.ofRaw "libfoo" with final_version := some ("2.0", "h1") }

/-- A collaborator bundle whose metadata store declares a strong export for
the resolved `libfoo` build (C10 witness input). -/
def extP : Ext :=
  { extEx with read_run_exports := fun _ t =>
      if t = "libfoo-2.0-h1" then some { strong := ["libfoo >=2.0"] } else none }

/-- The base Output for the C10 witness: one authored run requirement. -/
def oC10 : Output :=
  { data := { step_name := "B" }
    name := "B"
    requirements := { run := [CondaBuildSpec.ofRaw "other"] } }


/-! ## General lemmas about the list and dictionary operations -/

theorem getEnv_setEnv (r : EnvReqs) (e : EnvName) (l : List CondaBuildSpec) :
    getEnv (setEnv r e l) e = l := by
  cases e <;> rfl

theorem firstIdx_eq_none {α : Type} {p : α → Bool} :
    ∀ {l : List α}, firstIdx p l = none ↔ ∀ x ∈ l, p x = false := by
  intro l
  induction l with
  | nil => simp [firstIdx]
  | cons a rest ih =>
      by_cases h : p a = true
      · simp [firstIdx, h]
      · simp only [Bool.not_eq_true] at h
        simp [firstIdx, h, ih]

theorem firstIdx_isSome_any {α : Type} (p : α → Bool) (l : List α) :
    (firstIdx p l).isSome = l.any p := by
  induction l with
  | nil => rfl
  | cons a rest ih =>
      by_cases h : p a = true
      · simp [firstIdx, h]
      · simp only [Bool.not_eq_true] at h
        simp [firstIdx, h, ih]

theorem firstIdx_lt {α : Type} {p : α → Bool} :
    ∀ {l : List α} {i : Nat}, firstIdx p l = some i → i < l.length := by
  intro l
  induction l with
  | nil => intro i h; simp [firstIdx] at h
  | cons a rest ih =>
      intro i h
      by_cases hp : p a = true
      · simp only [firstIdx, hp, if_true, Option.some.injEq] at h
        subst h
        simp
      · simp only [Bool.not_eq_true] at hp
        simp only [firstIdx, hp, Bool.false_eq_true, if_false,
          Option.map_eq_some'] at h
        obtain ⟨j, hj, hji⟩ := h
        have := ih hj
        subst hji
        simp only [List.length_cons]
        omega

theorem firstIdx_set_self {α : Type} {p : α → Bool} {b : α} (hb : p b = true) :
    ∀ {l : List α} {i : Nat}, firstIdx p l = some i →
      firstIdx p (l.set i b) = some i := by
  intro l
  induction l with
  | nil => intro i h; simp [firstIdx] at h
  | cons a rest ih =>
      intro i h
      by_cases hp : p a = true
      · simp only [firstIdx, hp, if_true, Option.some.injEq] at h
        subst h
        simp [List.set, firstIdx, hb]
      · simp only [Bool.not_eq_true] at hp
        simp only [firstIdx, hp, Bool.false_eq_true, if_false,
          Option.map_eq_some'] at h
        obtain ⟨j, hj, hji⟩ := h
        subst hji
        simp [List.set, firstIdx, hp, ih hj]

theorem firstIdx_append_singleton_none {α : Type} {p : α → Bool} {b : α} :
    ∀ {l : List α}, firstIdx p l = none →
      firstIdx p (l ++ [b]) = if p b then some l.length else none := by
  intro l
  induction l with
  | nil =>
      intro _
      by_cases hb : p b = true
      · simp [firstIdx, hb]
      · simp only [Bool.not_eq_true] at hb
        simp [firstIdx, hb]
  | cons a rest ih =>
      intro h
      by_cases hp : p a = true
      · simp [firstIdx, hp] at h
      · simp only [Bool.not_eq_true] at hp
        simp only [firstIdx, hp, Bool.false_eq_true, if_false,
          Option.map_eq_none'] at h
        have h2 := ih h
        by_cases hb : p b = true
        · simp only [hb, if_true] at h2
          simp [List.cons_append, firstIdx, hp, h2, hb]
        · simp only [Bool.not_eq_true] at hb
          simp only [hb, Bool.false_eq_true, if_false] at h2
          simp [List.cons_append, firstIdx, hp, h2, hb]

/-! ## Claim C4: insertion of propagated exports -/

/-- C4.  Inserting a propagated export into a target environment replaces
in place (preserving the position) the first existing Spec with the same
resolved name that is a simple spec, and otherwise appends; everything
inserted is the freshly constructed Spec tagged `from_run_export = true`;
and, for a simple export constraint, the insertion is idempotent: a second
insertion of the same constraint replaces the Spec the first one inserted
instead of appending, so repeating a propagation never duplicates an entry
whose name is already present as a simple `from_run_export` Spec. -/
theorem claim_c4 (reqs : EnvReqs) (e : EnvName) (raw : String)
    (hs : (CondaBuildSpec.ofRaw raw).is_simple = true) :
    (∀ x ∈ getEnv (append_or_replace reqs e raw) e,
        x ∈ getEnv reqs e ∨ x = { CondaBuildSpec.ofRaw raw with from_run_export := true })
    ∧ ((getEnv (append_or_replace reqs e raw) e).length =
        if (getEnv reqs e).any
            (fun r => r.final_name == (CondaBuildSpec.ofRaw raw).name && r.is_simple)
        then (getEnv reqs e).length else (getEnv reqs e).length + 1)
    ∧ (∀ i, firstIdx
          (fun r => r.final_name == (CondaBuildSpec.ofRaw raw).name && r.is_simple)
          (getEnv reqs e) = some i →
        getEnv (append_or_replace reqs e raw) e =
          (getEnv reqs e).set i { CondaBuildSpec.ofRaw raw with from_run_export := true })
    ∧ (firstIdx
          (fun r => r.final_name == (CondaBuildSpec.ofRaw raw).name && r.is_simple)
          (getEnv reqs e) = none →
        getEnv (append_or_replace reqs e raw) e =
          getEnv reqs e ++ [{ CondaBuildSpec.ofRaw raw with from_run_export := true }])
    ∧ append_or_replace (append_or_replace reqs e raw) e raw =
        append_or_replace reqs e raw := by
  have hdef : ∀ l' : List CondaBuildSpec, append_or_replace_list l' raw =
      (match firstIdx
          (fun r => r.final_name == (CondaBuildSpec.ofRaw raw).name && r.is_simple) l' with
        | some i => l'.set i { CondaBuildSpec.ofRaw raw with from_run_export := true }
        | none => l' ++ [{ CondaBuildSpec.ofRaw raw with from_run_export := true }]) :=
    fun _ => rfl
  have hget : ∀ r' : EnvReqs, getEnv (append_or_replace r' e raw) e =
      append_or_replace_list (getEnv r' e) raw := by
    intro r'
    unfold append_or_replace
    rw [getEnv_setEnv]
  have hpsp : ((fun r : CondaBuildSpec =>
      r.final_name == (CondaBuildSpec.ofRaw raw).name && r.is_simple)
      { CondaBuildSpec.ofRaw raw with from_run_export := true }) = true := by
    have h1 : ({ CondaBuildSpec.ofRaw raw with from_run_export := true }).final_name
        = (CondaBuildSpec.ofRaw raw).name := rfl
    have h2 : ({ CondaBuildSpec.ofRaw raw with from_run_export := true }).is_simple
        = true := hs
    show (({ CondaBuildSpec.ofRaw raw with from_run_export := true }).final_name
      == (CondaBuildSpec.ofRaw raw).name
      && ({ CondaBuildSpec.ofRaw raw with from_run_export := true }).is_simple) = true
    rw [h1, h2, Bool.and_true, beq_self_eq_true]
  refine ⟨?_, ?_, ?_, ?_, ?_⟩
  · intro x hx
    rw [hget reqs, hdef] at hx
    rcases hcase : firstIdx
        (fun r => r.final_name == (CondaBuildSpec.ofRaw raw).name && r.is_simple)
        (getEnv reqs e) with _ | i
    · rw [hcase] at hx
      simp only [List.mem_append, List.mem_singleton] at hx
      rcases hx with hx | hx
      · exact Or.inl hx
      · exact Or.inr hx
    · rw [hcase] at hx
      exact List.mem_or_eq_of_mem_set hx
  · rw [hget reqs, hdef]
    rcases hcase : firstIdx
        (fun r => r.final_name == (CondaBuildSpec.ofRaw raw).name && r.is_simple)
        (getEnv reqs e) with _ | i
    · have hany : (getEnv reqs e).any
          (fun r => r.final_name == (CondaBuildSpec.ofRaw raw).name && r.is_simple)
          = false := by
        rw [← firstIdx_isSome_any, hcase]
        rfl
      rw [hcase, hany]
      simp
    · have hany : (getEnv reqs e).any
          (fun r => r.final_name == (CondaBuildSpec.ofRaw raw).name && r.is_simple)
          = true := by
        rw [← firstIdx_isSome_any, hcase]
        rfl
      rw [hcase, hany]
      simp
  · intro i hi
    rw [hget reqs, hdef, hi]
  · intro hnone
    rw [hget reqs, hdef, hnone]
  · have houter : append_or_replace (append_or_replace reqs e raw) e raw =
        setEnv (append_or_replace reqs e raw) e
          (append_or_replace_list (append_or_replace_list (getEnv reqs e) raw) raw) := by
      unfold append_or_replace
      rw [getEnv_setEnv]
    have hsetset : setEnv (append_or_replace reqs e raw) e
        (append_or_replace_list (append_or_replace_list (getEnv reqs e) raw) raw) =
        setEnv reqs e
          (append_or_replace_list (append_or_replace_list (getEnv reqs e) raw) raw) := by
      unfold append_or_replace
      cases e <;> rfl
    have hsome : ∀ (l' : List CondaBuildSpec) (i : Nat), firstIdx
        (fun r => r.final_name == (CondaBuildSpec.ofRaw raw).name && r.is_simple) l'
          = some i →
        append_or_replace_list l' raw =
          l'.set i { CondaBuildSpec.ofRaw raw with from_run_export := true } := by
      intro l' i h
      rw [hdef, h]
    have hnone2 : ∀ l' : List CondaBuildSpec, firstIdx
        (fun r => r.final_name == (CondaBuildSpec.ofRaw raw).name && r.is_simple) l'
          = none →
        append_or_replace_list l' raw =
          l' ++ [{ CondaBuildSpec.ofRaw raw with from_run_export := true }] := by
      intro l' h
      rw [hdef, h]
    have hidem : append_or_replace_list (append_or_replace_list (getEnv reqs e) raw) raw
        = append_or_replace_list (getEnv reqs e) raw := by
      rcases hcase : firstIdx
          (fun r => r.final_name == (CondaBuildSpec.ofRaw raw).name && r.is_simple)
          (getEnv reqs e) with _ | i
      · have hin := hnone2 _ hcase
        rw [hin]
        have h2 := firstIdx_append_singleton_none
          (b := { CondaBuildSpec.ofRaw raw with from_run_export := true }) hcase
        simp only [hpsp, if_true] at h2
        rw [hsome _ _ h2, List.set_append]
        simp
      · have hin := hsome _ _ hcase
        have hset := firstIdx_set_self
          (p := fun r => r.final_name == (CondaBuildSpec.ofRaw raw).name && r.is_simple)
          (b := { CondaBuildSpec.ofRaw raw with from_run_export := true })
          hpsp hcase
        rw [hin, hsome _ _ hset, List.set_set]
    rw [houter, hsetset, hidem]
    unfold append_or_replace
    rfl

/-- C4 witness: inserting `libfoo >=2.0` twice into the same run list gives
the same list as inserting it once. -/
theorem claim_c4_witness :
    append_or_replace (append_or_replace reqsC4 .run "libfoo >=2.0") .run "libfoo >=2.0"
      = append_or_replace reqsC4 .run "libfoo >=2.0" :=
  (claim_c4 reqsC4 .run "libfoo >=2.0" (by decide)).2.2.2.2

/-! ## Projection lemmas for the run-export routing -/

theorem foldl_id {α β : Type} (c : List α) (b : β) :
    c.foldl (fun acc _ => acc) b = b := by
  induction c generalizing b with
  | nil => rfl
  | cons a t ih => rw [List.foldl_cons]; exact ih b

theorem foldHost_build (l : List String) : ∀ rq : EnvReqs,
    (l.foldl (fun rq x => append_or_replace rq .host x) rq).build = rq.build := by
  induction l with
  | nil => intro _; rfl
  | cons a t ih => intro rq; rw [List.foldl_cons, ih]; rfl

theorem foldHost_host (l : List String) : ∀ rq : EnvReqs,
    (l.foldl (fun rq x => append_or_replace rq .host x) rq).host =
      l.foldl append_or_replace_list rq.host := by
  induction l with
  | nil => intro _; rfl
  | cons a t ih => intro rq; rw [List.foldl_cons, List.foldl_cons, ih]; rfl

theorem foldHost_run (l : List String) : ∀ rq : EnvReqs,
    (l.foldl (fun rq x => append_or_replace rq .host x) rq).run = rq.run := by
  induction l with
  | nil => intro _; rfl
  | cons a t ih => intro rq; rw [List.foldl_cons, ih]; rfl

theorem foldHost_rc (l : List String) : ∀ rq : EnvReqs,
    (l.foldl (fun rq x => append_or_replace rq .host x) rq).run_constrained =
      rq.run_constrained := by
  induction l with
  | nil => intro _; rfl
  | cons a t ih => intro rq; rw [List.foldl_cons, ih]; rfl

theorem foldRun_build (l : List String) : ∀ rq : EnvReqs,
    (l.foldl (fun rq x => append_or_replace rq .run x) rq).build = rq.build := by
  induction l with
  | nil => intro _; rfl
  | cons a t ih => intro rq; rw [List.foldl_cons, ih]; rfl

theorem foldRun_host (l : List String) : ∀ rq : EnvReqs,
    (l.foldl (fun rq x => append_or_replace rq .run x) rq).host = rq.host := by
  induction l with
  | nil => intro _; rfl
  | cons a t ih => intro rq; rw [List.foldl_cons, ih]; rfl

theorem foldRun_run (l : List String) : ∀ rq : EnvReqs,
    (l.foldl (fun rq x => append_or_replace rq .run x) rq).run =
      l.foldl append_or_replace_list rq.run := by
  induction l with
  | nil => intro _; rfl
  | cons a t ih => intro rq; rw [List.foldl_cons, List.foldl_cons, ih]; rfl

theorem foldRun_rc (l : List String) : ∀ rq : EnvReqs,
    (l.foldl (fun rq x => append_or_replace rq .run x) rq).run_constrained =
      rq.run_constrained := by
  induction l with
  | nil => intro _; rfl
  | cons a t ih => intro rq; rw [List.foldl_cons, ih]; rfl

theorem foldRC_build (l : List String) : ∀ rq : EnvReqs,
    (l.foldl (fun rq x => append_or_replace rq .run_constrained x) rq).build =
      rq.build := by
  induction l with
  | nil => intro _; rfl
  | cons a t ih => intro rq; rw [List.foldl_cons, ih]; rfl

theorem foldRC_host (l : List String) : ∀ rq : EnvReqs,
    (l.foldl (fun rq x => append_or_replace rq .run_constrained x) rq).host =
      rq.host := by
  induction l with
  | nil => intro _; rfl
  | cons a t ih => intro rq; rw [List.foldl_cons, ih]; rfl

theorem foldRC_run (l : List String) : ∀ rq : EnvReqs,
    (l.foldl (fun rq x => append_or_replace rq .run_constrained x) rq).run =
      rq.run := by
  induction l with
  | nil => intro _; rfl
  | cons a t ih => intro rq; rw [List.foldl_cons, ih]; rfl

theorem foldRC_rc (l : List String) : ∀ rq : EnvReqs,
    (l.foldl (fun rq x => append_or_replace rq .run_constrained x) rq).run_constrained =
      l.foldl append_or_replace_list rq.run_constrained := by
  induction l with
  | nil => intro _; rfl
  | cons a t ih => intro rq; rw [List.foldl_cons, List.foldl_cons, ih]; rfl

theorem foldSB_build (l : List String) : ∀ rq : EnvReqs,
    (l.foldl (fun rq x => append_or_replace (append_or_replace rq .host x) .run x) rq).build
      = rq.build := by
  induction l with
  | nil => intro _; rfl
  | cons a t ih => intro rq; rw [List.foldl_cons, ih]; rfl

theorem foldSB_host (l : List String) : ∀ rq : EnvReqs,
    (l.foldl (fun rq x => append_or_replace (append_or_replace rq .host x) .run x) rq).host
      = l.foldl append_or_replace_list rq.host := by
  induction l with
  | nil => intro _; rfl
  | cons a t ih => intro rq; rw [List.foldl_cons, List.foldl_cons, ih]; rfl

theorem foldSB_run (l : List String) : ∀ rq : EnvReqs,
    (l.foldl (fun rq x => append_or_replace (append_or_replace rq .host x) .run x) rq).run
      = l.foldl append_or_replace_list rq.run := by
  induction l with
  | nil => intro _; rfl
  | cons a t ih => intro rq; rw [List.foldl_cons, List.foldl_cons, ih]; rfl

theorem foldSB_rc (l : List String) : ∀ rq : EnvReqs,
    (l.foldl (fun rq x => append_or_replace (append_or_replace rq .host x) .run x)
      rq).run_constrained = rq.run_constrained := by
  induction l with
  | nil => intro _; rfl
  | cons a t ih => intro rq; rw [List.foldl_cons, ih]; rfl

theorem routeBuildRex_build (rq : EnvReqs) (rex : RunExportsInfo) :
    (routeBuildRex rq rex).build = rq.build := by
  unfold routeBuildRex
  rw [foldRC_build, foldHost_build, foldSB_build]

theorem routeBuildRex_host (rq : EnvReqs) (rex : RunExportsInfo) :
    (routeBuildRex rq rex).host =
      (rex.strong ++ rex.weak).foldl append_or_replace_list rq.host := by
  unfold routeBuildRex
  rw [foldRC_host, foldHost_host, foldSB_host, List.foldl_append]

theorem routeBuildRex_run (rq : EnvReqs) (rex : RunExportsInfo) :
    (routeBuildRex rq rex).run = rex.strong.foldl append_or_replace_list rq.run := by
  unfold routeBuildRex
  rw [foldRC_run, foldHost_run, foldSB_run]

theorem routeBuildRex_rc (rq : EnvReqs) (rex : RunExportsInfo) :
    (routeBuildRex rq rex).run_constrained =
      rex.strong_constrains.foldl append_or_replace_list rq.run_constrained := by
  unfold routeBuildRex
  rw [foldRC_rc, foldHost_rc, foldSB_rc]

theorem routeHostRex_build (rq : EnvReqs) (rex : RunExportsInfo) :
    (routeHostRex rq rex).build = rq.build := by
  unfold routeHostRex
  rw [foldRC_build, foldRC_build, foldRun_build, foldRun_build]

theorem routeHostRex_host (rq : EnvReqs) (rex : RunExportsInfo) :
    (routeHostRex rq rex).host = rq.host := by
  unfold routeHostRex
  rw [foldRC_host, foldRC_host, foldRun_host, foldRun_host]

theorem routeHostRex_run (rq : EnvReqs) (rex : RunExportsInfo) :
    (routeHostRex rq rex).run =
      (rex.strong ++ rex.weak).foldl append_or_replace_list rq.run := by
  unfold routeHostRex
  rw [foldRC_run, foldRC_run, foldRun_run, foldRun_run, List.foldl_append]

theorem routeHostRex_rc (rq : EnvReqs) (rex : RunExportsInfo) :
    (routeHostRex rq rex).run_constrained =
      (rex.strong_constrains ++ rex.weak_constrains).foldl append_or_replace_list
        rq.run_constrained := by
  unfold routeHostRex
  rw [foldRC_rc, foldRC_rc, foldRun_rc, foldRun_rc, List.foldl_append]

theorem foldBuildRex_build (c : List RunExportsInfo) : ∀ rq : EnvReqs,
    (c.foldl routeBuildRex rq).build = rq.build := by
  induction c with
  | nil => intro _; rfl
  | cons rex t ih => intro rq; rw [List.foldl_cons, ih, routeBuildRex_build]

theorem foldBuildRex_host (c : List RunExportsInfo) : ∀ rq : EnvReqs,
    (c.foldl routeBuildRex rq).host =
      ((c.map (fun rex => rex.strong ++ rex.weak)).flatten).foldl
        append_or_replace_list rq.host := by
  induction c with
  | nil => intro _; rfl
  | cons rex t ih =>
      intro rq
      rw [List.foldl_cons, ih, routeBuildRex_host, List.map_cons, List.flatten_cons,
        List.foldl_append, List.foldl_append, List.foldl_append]

theorem foldBuildRex_run (c : List RunExportsInfo) : ∀ rq : EnvReqs,
    (c.foldl routeBuildRex rq).run =
      ((c.map (·.strong)).flatten).foldl append_or_replace_list rq.run := by
  induction c with
  | nil => intro _; rfl
  | cons rex t ih =>
      intro rq
      rw [List.foldl_cons, ih, routeBuildRex_run, List.map_cons, List.flatten_cons,
        List.foldl_append]

theorem foldBuildRex_rc (c : List RunExportsInfo) : ∀ rq : EnvReqs,
    (c.foldl routeBuildRex rq).run_constrained =
      ((c.map (·.strong_constrains)).flatten).foldl append_or_replace_list
        rq.run_constrained := by
  induction c with
  | nil => intro _; rfl
  | cons rex t ih =>
      intro rq
      rw [List.foldl_cons, ih, routeBuildRex_rc, List.map_cons, List.flatten_cons,
        List.foldl_append]

theorem foldHostRex_build (c : List RunExportsInfo) : ∀ rq : EnvReqs,
    (c.foldl routeHostRex rq).build = rq.build := by
  induction c with
  | nil => intro _; rfl
  | cons rex t ih => intro rq; rw [List.foldl_cons, ih, routeHostRex_build]

theorem foldHostRex_host (c : List RunExportsInfo) : ∀ rq : EnvReqs,
    (c.foldl routeHostRex rq).host = rq.host := by
  induction c with
  | nil => intro _; rfl
  | cons rex t ih => intro rq; rw [List.foldl_cons, ih, routeHostRex_host]

theorem foldHostRex_run (c : List RunExportsInfo) : ∀ rq : EnvReqs,
    (c.foldl routeHostRex rq).run =
      ((c.map (fun rex => rex.strong ++ rex.weak)).flatten).foldl
        append_or_replace_list rq.run := by
  induction c with
  | nil => intro _; rfl
  | cons rex t ih =>
      intro rq
      rw [List.foldl_cons, ih, routeHostRex_run, List.map_cons, List.flatten_cons,
        List.foldl_append, List.foldl_append, List.foldl_append]

theorem foldHostRex_rc (c : List RunExportsInfo) : ∀ rq : EnvReqs,
    (c.foldl routeHostRex rq).run_constrained =
      ((c.map (fun rex => rex.strong_constrains ++ rex.weak_constrains)).flatten).foldl
        append_or_replace_list rq.run_constrained := by
  induction c with
  | nil => intro _; rfl
  | cons rex t ih =>
      intro rq
      rw [List.foldl_cons, ih, routeHostRex_rc, List.map_cons, List.flatten_cons,
        List.foldl_append, List.foldl_append, List.foldl_append]

theorem foldNoarchRex_build (c : List RunExportsInfo) : ∀ rq : EnvReqs,
    (c.foldl (fun rq rex =>
      rex.noarch.foldl (fun rq x => append_or_replace rq .run x) rq) rq).build =
      rq.build := by
  induction c with
  | nil => intro _; rfl
  | cons rex t ih => intro rq; rw [List.foldl_cons, ih, foldRun_build]

theorem foldNoarchRex_host (c : List RunExportsInfo) : ∀ rq : EnvReqs,
    (c.foldl (fun rq rex =>
      rex.noarch.foldl (fun rq x => append_or_replace rq .run x) rq) rq).host =
      rq.host := by
  induction c with
  | nil => intro _; rfl
  | cons rex t ih => intro rq; rw [List.foldl_cons, ih, foldRun_host]

theorem foldNoarchRex_run (c : List RunExportsInfo) : ∀ rq : EnvReqs,
    (c.foldl (fun rq rex =>
      rex.noarch.foldl (fun rq x => append_or_replace rq .run x) rq) rq).run =
      ((c.map (·.noarch)).flatten).foldl append_or_replace_list rq.run := by
  induction c with
  | nil => intro _; rfl
  | cons rex t ih =>
      intro rq
      rw [List.foldl_cons, ih, foldRun_run, List.map_cons, List.flatten_cons,
        List.foldl_append]

theorem foldNoarchRex_rc (c : List RunExportsInfo) : ∀ rq : EnvReqs,
    (c.foldl (fun rq rex =>
      rex.noarch.foldl (fun rq x => append_or_replace rq .run x) rq) rq).run_constrained =
      rq.run_constrained := by
  induction c with
  | nil => intro _; rfl
  | cons rex t ih => intro rq; rw [List.foldl_cons, ih, foldRun_rc]

theorem route_build_false (c : List RunExportsInfo) (rq : EnvReqs) :
    route false .build c rq = c.foldl routeBuildRex rq := rfl

theorem route_build_true (c : List RunExportsInfo) (rq : EnvReqs) :
    route true .build c rq = rq := by
  show c.foldl (fun acc _ => acc) rq = rq
  exact foldl_id c rq

theorem route_host_false (c : List RunExportsInfo) (rq : EnvReqs) :
    route false .host c rq = c.foldl routeHostRex rq := rfl

theorem route_host_true (c : List RunExportsInfo) (rq : EnvReqs) :
    route true .host c rq =
      c.foldl (fun rq rex =>
        rex.noarch.foldl (fun rq x => append_or_replace rq .run x) rq) rq := rfl

theorem route_run_id (n : Bool) (c : List RunExportsInfo) (rq : EnvReqs) :
    route n .run c rq = rq := rfl

theorem route_rc_id (n : Bool) (c : List RunExportsInfo) (rq : EnvReqs) :
    route n .run_constrained c rq = rq := rfl

/-! ## Claim C2: the routing table of `propagate_run_exports` -/

/-- C2.  The routing of collected run exports by environment and noarch
flag: on a noarch Output build-environment exports are inserted nowhere
(the routing is the identity); after a `build` solve on a non-noarch
Output, `strong` exports are inserted into `host` and `run`, `weak`
exports into `host` only, and `strong_constrains` into `run_constrained`;
after a `host` solve on a non-noarch Output, `strong` and `weak` exports
go to `run` and `strong_constrains` and `weak_constrains` go to
`run_constrained`; on a noarch Output host-environment propagation
forwards only `noarch`-strength entries, into `run`.  The last three
conjuncts restate the noarch suppression at the level of
`propagate_run_exports` itself: build-environment propagation of a noarch
Output leaves `host`, `run` and `run_constrained` untouched. -/
theorem claim_c2 (c : List RunExportsInfo) (reqs : EnvReqs) (ext : Ext)
    (pc : String) (o : Output) :
    route true .build c reqs = reqs
    ∧ (route false .build c reqs).build = reqs.build
    ∧ (route false .build c reqs).host =
        ((c.map (fun rex => rex.strong ++ rex.weak)).flatten).foldl
          append_or_replace_list reqs.host
    ∧ (route false .build c reqs).run =
        ((c.map (·.strong)).flatten).foldl append_or_replace_list reqs.run
    ∧ (route false .build c reqs).run_constrained =
        ((c.map (·.strong_constrains)).flatten).foldl append_or_replace_list
          reqs.run_constrained
    ∧ (route false .host c reqs).build = reqs.build
    ∧ (route false .host c reqs).host = reqs.host
    ∧ (route false .host c reqs).run =
        ((c.map (fun rex => rex.strong ++ rex.weak)).flatten).foldl
          append_or_replace_list reqs.run
    ∧ (route false .host c reqs).run_constrained =
        ((c.map (fun rex => rex.strong_constrains ++ rex.weak_constrains)).flatten).foldl
          append_or_replace_list reqs.run_constrained
    ∧ (route true .host c reqs).build = reqs.build
    ∧ (route true .host c reqs).host = reqs.host
    ∧ (route true .host c reqs).run_constrained = reqs.run_constrained
    ∧ (route true .host c reqs).run =
        ((c.map (·.noarch)).flatten).foldl append_or_replace_list reqs.run
    ∧ (({ o with noarch := true } : Output).propagate_run_exports ext .build pc).requirements.host
        = o.requirements.host
    ∧ (({ o with noarch := true } : Output).propagate_run_exports ext .build pc).requirements.run
        = o.requirements.run
    ∧ (({ o with noarch := true } : Output).propagate_run_exports ext .build pc).requirements.run_constrained
        = o.requirements.run_constrained := by
  have hgen : ∀ o' : Output, o'.noarch = true →
      (o'.propagate_run_exports ext .build pc).requirements =
        setEnv o'.requirements .build
          (collectPhase o'.conda_build_config o'.ignoreRunExports ext pc
            (getEnv o'.requirements .build)).1 := by
    intro o' hn
    unfold Output.propagate_run_exports
    rw [hn]
    simp only [route_build_true]
  have hprop := hgen { o with noarch := true } rfl
  refine ⟨?_, ?_, ?_, ?_, ?_, ?_, ?_, ?_, ?_, ?_, ?_, ?_, ?_, ?_, ?_, ?_⟩
  · exact route_build_true c reqs
  · rw [route_build_false, foldBuildRex_build]
  · rw [route_build_false, foldBuildRex_host]
  · rw [route_build_false, foldBuildRex_run]
  · rw [route_build_false, foldBuildRex_rc]
  · rw [route_host_false, foldHostRex_build]
  · rw [route_host_false, foldHostRex_host]
  · rw [route_host_false, foldHostRex_run]
  · rw [route_host_false, foldHostRex_rc]
  · rw [route_host_true, foldNoarchRex_build]
  · rw [route_host_true, foldNoarchRex_host]
  · rw [route_host_true, foldNoarchRex_rc]
  · rw [route_host_true, foldNoarchRex_run]
  · rw [hprop]; rfl
  · rw [hprop]; rfl
  · rw [hprop]; rfl

/-! ## Claim C3: the `-static` self-export suppression clears whole lists -/

/-- C3 evaluation at the failing input.  The Output `foo-static` declares
the weak run-exports `["foo", "bar"]`.  `"bar"` is not a name-prefix of
`"foo-static"`, so per the claim only the `"foo"` entry should be dropped
and `"bar"` should survive finalization; but `set_final_build_id` clears
the whole weak list in place at the first matching entry, so `"bar"` is
dropped as well and no run-exports are written back into the build
section. -/
theorem claim_c3_eval :
    oC3.run_exports.weak.map (fun s => s.name) = ["foo", "bar"]
    ∧ strStarts "foo-static" "bar" = false
    ∧ strStarts "foo-static" "foo" = true
    ∧ (oC3.set_final_build_id extEx).run_exports.weak = []
    ∧ alookup (oC3.set_final_build_id extEx).data.build "run_exports" = some Val.null := by
  refine ⟨by decide, by decide, by decide, by decide, by decide⟩

/-! ## Claim C8: a `COMPILER_` Spec in host is always fatal -/

/-- C8.  Whenever any Spec of the host requirement list carries the
`COMPILER_` sentinel, `apply_variant` raises, for every variant input; the
host Spec is never relocated or rewritten into a result. -/
theorem claim_c8 (ext : Ext) (o : Output) (v : List (String × String))
    (dk : List String)
    (h : ∃ r ∈ o.requirements.host, strStarts r.name "COMPILER_" = true) :
    ∃ e, (o.apply_variant ext v dk).2 = .error e := by
  have hany : o.requirements.host.any (fun r => strStarts r.name "COMPILER_") = true := by
    obtain ⟨r, hr, hs⟩ := h
    exact List.any_eq_true.mpr ⟨r, hr, hs⟩
  unfold Output.apply_variant
  rcases hinj : injectCompilers ext o.config v
      (o.requirements.build.zip (pinFromVariant v o.requirements.build)) with e | b2
  · exact ⟨e, rfl⟩
  · exact ⟨"Compiler should be in build section", by simp [hany]⟩

/-- C8 witness: an Output whose host declares `COMPILER_CXX cxx` fails
variant application. -/
theorem claim_c8_witness :
    ∃ e, (oC8.apply_variant extEx [] []).2 = .error e :=
  claim_c8 extEx oC8 [] [] ⟨CondaBuildSpec.ofRaw "COMPILER_CXX cxx", by decide, by decide⟩

/-! ## Claim C9: compiler injection scenario -/

/-- C9.  For a build Spec carrying the `COMPILER_` sentinel for language
`c`: with variant `{c_compiler: gcc, target_platform: linux-64}` the final
build constraint is `"gcc_linux-64"`; adding `c_compiler_version: 11`
yields `"gcc_linux-64 11*"`; and with no explicit compiler in the variant
the external native-compiler default is used, suffixed with the target
platform. -/
theorem claim_c9 (ext : Ext) :
    (((oC9.apply_variant ext [("c_compiler", "gcc"), ("target_platform", "linux-64")] []).2).map
        (fun c => c.requirements.build.map (fun s => s.final))) = .ok ["gcc_linux-64"]
    ∧ (((oC9.apply_variant ext [("c_compiler", "gcc"), ("target_platform", "linux-64"),
          ("c_compiler_version", "11")] []).2).map
        (fun c => c.requirements.build.map (fun s => s.final))) = .ok ["gcc_linux-64 11*"]
    ∧ (((oC9.apply_variant ext [("target_platform", "linux-64")] []).2).map
        (fun c => c.requirements.build.map (fun s => s.final))) =
      .ok [ext.native_compiler "c" oC9.config ++ "_" ++ "linux-64"] := by
  refine ⟨rfl, rfl, rfl⟩

/-! ## Claim C10: unresolved Specs are skipped by the export collection -/

theorem setEnv_setEnv (r : EnvReqs) (e : EnvName) (a b : List CondaBuildSpec) :
    setEnv (setEnv r e a) e b = setEnv r e b := by
  cases e <;> rfl

theorem envReqs_ext {a b : EnvReqs} (h1 : a.build = b.build) (h2 : a.host = b.host)
    (h3 : a.run = b.run) (h4 : a.run_constrained = b.run_constrained) : a = b := by
  cases a; cases b; simp_all

theorem collectStep_skip (cfgPins : List (String × String)) (ignore : List String)
    (ext : Ext) (pc : String) (s : CondaBuildSpec) (h : s.final_version = none) :
    collectStep cfgPins ignore ext pc s = (s, []) := by
  cases htr : s.is_transitive_dependency <;> cases hig : ignore.contains s.name <;>
    simp [collectStep, htr, hig, h]

theorem collectPhase_append (cfgPins : List (String × String)) (ignore : List String)
    (ext : Ext) (pc : String) (l1 l2 : List CondaBuildSpec) :
    collectPhase cfgPins ignore ext pc (l1 ++ l2) =
      ((collectPhase cfgPins ignore ext pc l1).1 ++ (collectPhase cfgPins ignore ext pc l2).1,
       (collectPhase cfgPins ignore ext pc l1).2 ++ (collectPhase cfgPins ignore ext pc l2).2) := by
  unfold collectPhase
  rw [List.map_append, List.map_append, List.map_append, List.flatten_append]

theorem collectPhase_fst_length (cfgPins : List (String × String)) (ignore : List String)
    (ext : Ext) (pc : String) (l : List CondaBuildSpec) :
    (collectPhase cfgPins ignore ext pc l).1.length = l.length := by
  unfold collectPhase
  rw [List.length_map, List.length_map]

theorem collectPhase_singleton_skip (cfgPins : List (String × String))
    (ignore : List String) (ext : Ext) (pc : String) (s : CondaBuildSpec)
    (h : s.final_version = none) :
    collectPhase cfgPins ignore ext pc [s] = ([s], []) := by
  unfold collectPhase
  simp [collectStep_skip cfgPins ignore ext pc s h]

/-- Splice lemma for the routing: the solved environment's own requirement
list is never a routing target, and the routing of the other lists depends
only on them, so routing with the env list set to `X` equals routing with
it set to `Y` and then overwriting the env list with `X`. -/
theorem route_setEnv_splice (n : Bool) (env : EnvName) (c : List RunExportsInfo)
    (r : EnvReqs) (X Y : List CondaBuildSpec) :
    route n env c (setEnv r env X) =
      setEnv (route n env c (setEnv r env Y)) env X := by
  cases env with
  | build =>
      cases n with
      | false =>
          rw [route_build_false, route_build_false]
          refine envReqs_ext ?_ ?_ ?_ ?_
          · show (List.foldl routeBuildRex (setEnv r .build X) c).build = X
            rw [foldBuildRex_build]
            rfl
          · show (List.foldl routeBuildRex (setEnv r .build X) c).host
              = (List.foldl routeBuildRex (setEnv r .build Y) c).host
            rw [foldBuildRex_host, foldBuildRex_host]
            rfl
          · show (List.foldl routeBuildRex (setEnv r .build X) c).run
              = (List.foldl routeBuildRex (setEnv r .build Y) c).run
            rw [foldBuildRex_run, foldBuildRex_run]
            rfl
          · show (List.foldl routeBuildRex (setEnv r .build X) c).run_constrained
              = (List.foldl routeBuildRex (setEnv r .build Y) c).run_constrained
            rw [foldBuildRex_rc, foldBuildRex_rc]
            rfl
      | true =>
          rw [route_build_true, route_build_true, setEnv_setEnv]
  | host =>
      cases n with
      | false =>
          rw [route_host_false, route_host_false]
          refine envReqs_ext ?_ ?_ ?_ ?_
          · show (List.foldl routeHostRex (setEnv r .host X) c).build
              = (List.foldl routeHostRex (setEnv r .host Y) c).build
            rw [foldHostRex_build, foldHostRex_build]
            rfl
          · show (List.foldl routeHostRex (setEnv r .host X) c).host = X
            rw [foldHostRex_host]
            rfl
          · show (List.foldl routeHostRex (setEnv r .host X) c).run
              = (List.foldl routeHostRex (setEnv r .host Y) c).run
            rw [foldHostRex_run, foldHostRex_run]
            rfl
          · show (List.foldl routeHostRex (setEnv r .host X) c).run_constrained
              = (List.foldl routeHostRex (setEnv r .host Y) c).run_constrained
            rw [foldHostRex_rc, foldHostRex_rc]
            rfl
      | true =>
          rw [route_host_true, route_host_true]
          refine envReqs_ext ?_ ?_ ?_ ?_
          · show (List.foldl (fun rq rex => rex.noarch.foldl
                (fun rq x => append_or_replace rq .run x) rq) (setEnv r .host X) c).build
              = (List.foldl (fun rq rex => rex.noarch.foldl
                (fun rq x => append_or_replace rq .run x) rq) (setEnv r .host Y) c).build
            rw [foldNoarchRex_build, foldNoarchRex_build]
            rfl
          · show (List.foldl (fun rq rex => rex.noarch.foldl
                (fun rq x => append_or_replace rq .run x) rq) (setEnv r .host X) c).host = X
            rw [foldNoarchRex_host]
            rfl
          · show (List.foldl (fun rq rex => rex.noarch.foldl
                (fun rq x => append_or_replace rq .run x) rq) (setEnv r .host X) c).run
              = (List.foldl (fun rq rex => rex.noarch.foldl
                (fun rq x => append_or_replace rq .run x) rq) (setEnv r .host Y) c).run
            rw [foldNoarchRex_run, foldNoarchRex_run]
            rfl
          · show (List.foldl (fun rq rex => rex.noarch.foldl
                (fun rq x => append_or_replace rq .run x) rq) (setEnv r .host X) c).run_constrained
              = (List.foldl (fun rq rex => rex.noarch.foldl
                (fun rq x => append_or_replace rq .run x) rq) (setEnv r .host Y) c).run_constrained
            rw [foldNoarchRex_rc, foldNoarchRex_rc]
            rfl
  | run =>
      rw [route_run_id, route_run_id, setEnv_setEnv]
  | run_constrained =>
      rw [route_rc_id, route_rc_id, setEnv_setEnv]

/-- C10.  `propagate_run_exports` is total over unresolved Specs: a
non-transitive, non-ignored Spec with no bound `final_version` in the
solved environment is skipped — it contributes no export records, it is
left unchanged in place, and the processing of the remaining Specs (and
the routing of their exports) is exactly that of the list without it. -/
theorem claim_c10 (ext : Ext) (pc : String) (o : Output) (env : EnvName)
    (l1 l2 : List CondaBuildSpec) (s : CondaBuildSpec)
    (h1 : s.is_transitive_dependency = false)
    (h2 : o.ignoreRunExports.contains s.name = false)
    (h3 : s.final_version = none) :
    (Output.propagate_run_exports
        { o with requirements := setEnv o.requirements env (l1 ++ s :: l2) }
        ext env pc).requirements =
      setEnv (Output.propagate_run_exports
          { o with requirements := setEnv o.requirements env (l1 ++ l2) }
          ext env pc).requirements env
        ((getEnv (Output.propagate_run_exports
            { o with requirements := setEnv o.requirements env (l1 ++ l2) }
            ext env pc).requirements env).take l1.length
          ++ s :: (getEnv (Output.propagate_run_exports
            { o with requirements := setEnv o.requirements env (l1 ++ l2) }
            ext env pc).requirements env).drop l1.length) := by
  have hCP1 : collectPhase o.conda_build_config o.ignoreRunExports ext pc (l1 ++ s :: l2) =
      ((collectPhase o.conda_build_config o.ignoreRunExports ext pc l1).1 ++ s ::
        (collectPhase o.conda_build_config o.ignoreRunExports ext pc l2).1,
       (collectPhase o.conda_build_config o.ignoreRunExports ext pc l1).2 ++
        (collectPhase o.conda_build_config o.ignoreRunExports ext pc l2).2) := by
    have e0 : l1 ++ s :: l2 = (l1 ++ [s]) ++ l2 := by simp
    rw [e0, collectPhase_append, collectPhase_append,
      collectPhase_singleton_skip o.conda_build_config o.ignoreRunExports ext pc s h3]
    simp
  have hCP2 := collectPhase_append o.conda_build_config o.ignoreRunExports ext pc l1 l2
  have hL : (Output.propagate_run_exports
      { o with requirements := setEnv o.requirements env (l1 ++ s :: l2) }
      ext env pc).requirements =
      route o.noarch env
        (collectPhase o.conda_build_config o.ignoreRunExports ext pc (l1 ++ s :: l2)).2
        (setEnv o.requirements env
          (collectPhase o.conda_build_config o.ignoreRunExports ext pc (l1 ++ s :: l2)).1) := by
    unfold Output.propagate_run_exports
    rw [getEnv_setEnv, setEnv_setEnv]
    rfl
  have hR : (Output.propagate_run_exports
      { o with requirements := setEnv o.requirements env (l1 ++ l2) }
      ext env pc).requirements =
      route o.noarch env
        (collectPhase o.conda_build_config o.ignoreRunExports ext pc (l1 ++ l2)).2
        (setEnv o.requirements env
          (collectPhase o.conda_build_config o.ignoreRunExports ext pc (l1 ++ l2)).1) := by
    unfold Output.propagate_run_exports
    rw [getEnv_setEnv, setEnv_setEnv]
    rfl
  have hown : getEnv (route o.noarch env
      (collectPhase o.conda_build_config o.ignoreRunExports ext pc (l1 ++ l2)).2
      (setEnv o.requirements env
        (collectPhase o.conda_build_config o.ignoreRunExports ext pc (l1 ++ l2)).1)) env =
      (collectPhase o.conda_build_config o.ignoreRunExports ext pc (l1 ++ l2)).1 := by
    rw [route_setEnv_splice o.noarch env _ o.requirements _
      (collectPhase o.conda_build_config o.ignoreRunExports ext pc (l1 ++ l2)).1,
      getEnv_setEnv]
  rw [hL, hR, hown, hCP1, hCP2]
  have hlen : l1.length =
      (collectPhase o.conda_build_config o.ignoreRunExports ext pc l1).1.length :=
    (collectPhase_fst_length o.conda_build_config o.ignoreRunExports ext pc l1).symm
  rw [hlen, List.take_left, List.drop_left]
  exact route_setEnv_splice o.noarch env _ o.requirements _ _

/-- C10 witness: inserting an unresolved Spec `bar` into the solved host
list of a concrete Output changes the propagation result only by the
unchanged `bar` sitting at its position. -/
theorem claim_c10_witness :
    (Output.propagate_run_exports
        { oC10 with requirements := (setEnv oC10.requirements .host
          ([specLibfoo] ++ CondaBuildSpec.ofRaw "bar" :: [])) }
        extP .host "pc").requirements =
      setEnv (Output.propagate_run_exports
          { oC10 with requirements := (setEnv oC10.requirements .host
            ([specLibfoo] ++ [])) }
          extP .host "pc").requirements .host
        ((getEnv (Output.propagate_run_exports
            { oC10 with requirements := (setEnv oC10.requirements .host
              ([specLibfoo] ++ [])) }
            extP .host "pc").requirements .host).take [specLibfoo].length
          ++ CondaBuildSpec.ofRaw "bar" :: (getEnv (Output.propagate_run_exports
            { oC10 with requirements := (setEnv oC10.requirements .host
              ([specLibfoo] ++ [])) }
            extP .host "pc").requirements .host).drop [specLibfoo].length) :=
  claim_c10 extP "pc" oC10 .host [specLibfoo] [] (CondaBuildSpec.ofRaw "bar")
    (by decide) (by decide) (by decide)

/-! ## Claim C7: variant isolation of `apply_variant` -/

theorem apply_variant_ok (o : Output) (ext : Ext) (v : List (String × String))
    (dk : List String) (c : Output)
    (h : (o.apply_variant ext v dk).2 = .ok c) :
    ∃ b2 dv,
      injectCompilers ext o.config v
        (o.requirements.build.zip (pinFromVariant v o.requirements.build)) = .ok b2
      ∧ lookupAll v dk = .ok dv
      ∧ c = { o with
          variant := some v
          requirements := { o.requirements with build := b2, host := pinFromVariant v o.requirements.host }
          config := ext.merge_config o.config v
          differentiating_keys := dk
          differentiating_variant := dv } := by
  have h' : (match injectCompilers ext o.config v
      (o.requirements.build.zip (pinFromVariant v o.requirements.build)) with
    | .error e => Except.error e
    | .ok b2 =>
        if o.requirements.host.any (fun r => strStarts r.name "COMPILER_") then
          Except.error "Compiler should be in build section"
        else
          match lookupAll v dk with
          | .error e => Except.error e
          | .ok dv =>
              Except.ok { o with
                variant := some v
                requirements := { o.requirements with build := b2, host := pinFromVariant v o.requirements.host }
                config := ext.merge_config o.config v
                differentiating_keys := dk
                differentiating_variant := dv }) = Except.ok c := h
  rcases hinj : injectCompilers ext o.config v
      (o.requirements.build.zip (pinFromVariant v o.requirements.build)) with e | b2
  · rw [hinj] at h'
    simp at h'
  · rw [hinj] at h'
    rcases hany : o.requirements.host.any (fun r => strStarts r.name "COMPILER_") with _ | _
    · rw [hany] at h'
      simp only [Bool.false_eq_true, if_false] at h'
      rcases hdv : lookupAll v dk with e | dv
      · rw [hdv] at h'
        simp at h'
      · rw [hdv] at h'
        simp only [Except.ok.injEq] at h'
        exact ⟨b2, dv, rfl, rfl, h'.symm⟩
    · rw [hany] at h'
      simp at h'

theorem pinFromVariant_agree (v1 v2 : List (String × String))
    (l : List CondaBuildSpec)
    (h : ∀ r ∈ l, alookup v1 (dashToUnderscore r.name) = alookup v2 (dashToUnderscore r.name)) :
    pinFromVariant v1 l = pinFromVariant v2 l := by
  unfold pinFromVariant
  apply List.map_congr_left
  intro r hr
  show (match alookup v1 (dashToUnderscore r.name) with
    | some v => { CondaBuildSpec.ofRaw (r.name ++ " " ++ v) with
                  from_pinnings := true, is_inherited := r.is_inherited }
    | none => r) =
    (match alookup v2 (dashToUnderscore r.name) with
    | some v => { CondaBuildSpec.ofRaw (r.name ++ " " ++ v) with
                  from_pinnings := true, is_inherited := r.is_inherited }
    | none => r)
  rw [h r hr]

theorem injectOne_agree (ext : Ext) (cfg : Config) (v1 v2 : List (String × String))
    (r cur : CondaBuildSpec)
    (h : ∀ k ∈ entryKeys r, alookup v1 k = alookup v2 k) :
    injectOne ext cfg v1 r cur = injectOne ext cfg v2 r cur := by
  by_cases hc : strStarts r.name "COMPILER_" = true
  · rcases hsp : r.splitted[1]? with _ | t
    · simp [injectOne, hc, hsp]
    · have hk1 : alookup v1 "target_platform" = alookup v2 "target_platform" :=
        h _ (by simp [entryKeys, hc, hsp])
      have hk2 : alookup v1 (strLower t ++ "_compiler") = alookup v2 (strLower t ++ "_compiler") :=
        h _ (by simp [entryKeys, hc, hsp])
      have hk3 : alookup v1 (strLower t ++ "_compiler_version")
          = alookup v2 (strLower t ++ "_compiler_version") :=
        h _ (by simp [entryKeys, hc, hsp])
      simp only [injectOne, hc, if_true, hsp]
      rw [hk1, hk2, hk3]
  · simp only [Bool.not_eq_true] at hc
    simp [injectOne, hc]

theorem injectCompilers_agree (ext : Ext) (cfg : Config)
    (v1 v2 : List (String × String)) :
    ∀ l : List (CondaBuildSpec × CondaBuildSpec),
    (∀ p ∈ l, ∀ k ∈ entryKeys p.1, alookup v1 k = alookup v2 k) →
    injectCompilers ext cfg v1 l = injectCompilers ext cfg v2 l := by
  intro l
  induction l with
  | nil => intro _; rfl
  | cons p t ih =>
      intro h
      obtain ⟨r, cur⟩ := p
      simp only [injectCompilers]
      rw [injectOne_agree ext cfg v1 v2 r cur (h (r, cur) (by simp)),
        ih (fun q hq k hk => h q (by simp [hq]) k hk)]

theorem mem_relevantKeys_build (o : Output) (r : CondaBuildSpec) (k : String)
    (hr : r ∈ o.requirements.build) (hk : k ∈ entryKeys r) : k ∈ relevantKeys o := by
  unfold relevantKeys
  rw [List.mem_flatten]
  exact ⟨entryKeys r, List.mem_map_of_mem _ (List.mem_append_left _ hr), hk⟩

theorem mem_relevantKeys_host (o : Output) (r : CondaBuildSpec) (k : String)
    (hr : r ∈ o.requirements.host) (hk : k ∈ entryKeys r) : k ∈ relevantKeys o := by
  unfold relevantKeys
  rw [List.mem_flatten]
  exact ⟨entryKeys r, List.mem_map_of_mem _ (List.mem_append_right _ hr), hk⟩

/-- C7.  `apply_variant` never mutates the template Output (the returned
template post-state is the template itself, every write of the source
targeting the deep copy); on success the copy's `run` and
`run_constrained` requirement lists — and its identity, raw data and
declared run-exports — are the template's; and two applications whose
variants agree on every key any requirement entry consults produce copies
with identical requirements: the results differ only where their variants
differ. -/
theorem claim_c7 (ext : Ext) (o : Output) (v1 v2 : List (String × String))
    (dk1 dk2 : List String) (c1 c2 : Output) :
    (o.apply_variant ext v1 dk1).1 = o
    ∧ ((o.apply_variant ext v1 dk1).2 = .ok c1 →
        c1.requirements.run = o.requirements.run
        ∧ c1.requirements.run_constrained = o.requirements.run_constrained
        ∧ c1.name = o.name ∧ c1.version = o.version
        ∧ c1.run_exports = o.run_exports ∧ c1.data = o.data)
    ∧ ((o.apply_variant ext v1 dk1).2 = .ok c1 →
        (o.apply_variant ext v2 dk2).2 = .ok c2 →
        (∀ k ∈ relevantKeys o, alookup v1 k = alookup v2 k) →
        c1.requirements = c2.requirements) := by
  refine ⟨rfl, ?_, ?_⟩
  · intro h
    obtain ⟨b2, dv, _, _, hc⟩ := apply_variant_ok o ext v1 dk1 c1 h
    subst hc
    exact ⟨rfl, rfl, rfl, rfl, rfl, rfl⟩
  · intro h1 h2 hagree
    obtain ⟨b2a, dva, hinja, _, hca⟩ := apply_variant_ok o ext v1 dk1 c1 h1
    obtain ⟨b2b, dvb, hinjb, _, hcb⟩ := apply_variant_ok o ext v2 dk2 c2 h2
    have hpinB : pinFromVariant v1 o.requirements.build = pinFromVariant v2 o.requirements.build :=
      pinFromVariant_agree v1 v2 o.requirements.build
        (fun r hr => hagree _ (mem_relevantKeys_build o r _ hr (by simp [entryKeys])))
    have hpinH : pinFromVariant v1 o.requirements.host = pinFromVariant v2 o.requirements.host :=
      pinFromVariant_agree v1 v2 o.requirements.host
        (fun r hr => hagree _ (mem_relevantKeys_host o r _ hr (by simp [entryKeys])))
    have hinj : injectCompilers ext o.config v1
        (o.requirements.build.zip (pinFromVariant v1 o.requirements.build)) =
        injectCompilers ext o.config v2
        (o.requirements.build.zip (pinFromVariant v2 o.requirements.build)) := by
      rw [hpinB]
      exact injectCompilers_agree ext o.config v1 v2 _
        (fun p hp k hk => hagree k
          (mem_relevantKeys_build o p.1 k (List.of_mem_zip hp).1 hk))
    have hb : b2a = b2b := by
      have := hinja.symm.trans (hinj.trans hinjb)
      simpa using this
    subst hca
    subst hcb
    simp [hb, hpinH]

/-- C7 witness: at a concrete template, two variants differing only on a
key nothing consults give copies with identical requirements, and the
copy's run list is the template's. -/
theorem claim_c7_witness :
    cC7a.requirements.run = oC7.requirements.run
    ∧ cC7a.requirements = cC7b.requirements := by
  have h := claim_c7 extEx oC7 vC7a vC7b [] [] cC7a cC7b
  exact ⟨(h.2.1 rfl).1, h.2.2 rfl rfl (by decide)⟩

/-! ## Association-list lemmas for the section merge -/

theorem alookup_aset_self {α : Type} (d : List (String × α)) (k : String) (v : α) :
    alookup (aset d k v) k = some v := by
  induction d with
  | nil => simp [aset, alookup]
  | cons p rest ih =>
      obtain ⟨k', v'⟩ := p
      by_cases h : k' = k
      · simp [aset, h, alookup]
      · simp [aset, h, alookup, ih]

theorem alookup_aset_other {α : Type} (d : List (String × α)) (k k' : String) (v : α)
    (hne : k ≠ k') : alookup (aset d k v) k' = alookup d k' := by
  induction d with
  | nil => simp [aset, alookup, hne]
  | cons p rest ih =>
      obtain ⟨k0, v0⟩ := p
      by_cases h : k0 = k
      · simp [aset, h, alookup, hne]
      · simp [aset, h, alookup, ih]

theorem alookup_eq_none_iff {α : Type} (d : List (String × α)) (k : String) :
    alookup d k = none ↔ k ∉ keysOf d := by
  induction d with
  | nil => simp [alookup, keysOf]
  | cons p rest ih =>
      obtain ⟨k0, v0⟩ := p
      unfold keysOf
      rw [List.map_cons, List.mem_cons]
      by_cases h : k0 = k
      · simp [alookup, h]
      · rw [show alookup ((k0, v0) :: rest) k = alookup rest k from by simp [alookup, h]]
        unfold keysOf at ih
        rw [ih]
        constructor
        · intro hn hc
          rcases hc with hc | hc
          · exact h hc.symm
          · exact hn hc
        · intro hn hc
          exact hn (Or.inr hc)

theorem dictUpdate_cons (b : Dict) (k0 : String) (v0 : Val) (rest : Dict) :
    dictUpdate b ((k0, v0) :: rest) = dictUpdate (aset b k0 v0) rest := rfl

theorem alookup_dictUpdate_not_mem (u : Dict) :
    ∀ (b : Dict) (k : String), k ∉ keysOf u →
      alookup (dictUpdate b u) k = alookup b k := by
  induction u with
  | nil => intro b k _; rfl
  | cons p rest ih =>
      intro b k hk
      obtain ⟨k0, v0⟩ := p
      have h1 : k0 ≠ k := by
        intro he
        exact hk (by simp [keysOf, he])
      have h2 : k ∉ keysOf rest := by
        intro he
        exact hk (by simp [keysOf]; exact Or.inr (by simpa [keysOf] using he))
      rw [dictUpdate_cons, ih (aset b k0 v0) k h2, alookup_aset_other b k0 k v0 h1]

theorem alookup_dictUpdate_mem (u : Dict) :
    ∀ (b : Dict) (k : String) (v : Val), alookup u k = some v → keysNodup u →
      alookup (dictUpdate b u) k = some v := by
  induction u with
  | nil => intro b k v h _; simp [alookup] at h
  | cons p rest ih =>
      intro b k v h hnd
      obtain ⟨k0, v0⟩ := p
      have hnd' : k0 ∉ keysOf rest ∧ keysNodup rest := by
        have := hnd
        unfold keysNodup keysOf at this
        rw [List.map_cons, List.nodup_cons] at this
        exact ⟨this.1, this.2⟩
      by_cases h0 : k0 = k
      · have hv : v0 = v := by
          simp [alookup, h0] at h
          exact h
        subst h0
        subst hv
        rw [dictUpdate_cons,
          alookup_dictUpdate_not_mem rest (aset b k0 v0) k0 hnd'.1,
          alookup_aset_self]
      · have h' : alookup rest k = some v := by
          simpa [alookup, h0] using h
        rw [dictUpdate_cons]
        exact ih (aset b k0 v0) k v h' hnd'.2

theorem alookup_dictUpdate_nil (b : Dict) (k : String) (hb : keysNodup b) :
    alookup (dictUpdate [] b) k = alookup b k := by
  rcases hcase : alookup b k with _ | v
  · rw [alookup_dictUpdate_not_mem b [] k ((alookup_eq_none_iff b k).mp hcase)]
    rfl
  · exact alookup_dictUpdate_mem b [] k v hcase hb

theorem overlay_lookup_left (b u : Dict) (hu : keysNodup u) (k : String) (v : Val)
    (h : alookup u k = some v) :
    alookup (dictUpdate (dictUpdate [] b) u) k = some v :=
  alookup_dictUpdate_mem u (dictUpdate [] b) k v h hu

theorem overlay_lookup_right (b u : Dict) (hb : keysNodup b) (k : String)
    (h : alookup u k = none) :
    alookup (dictUpdate (dictUpdate [] b) u) k = alookup b k := by
  rw [alookup_dictUpdate_not_mem u (dictUpdate [] b) k ((alookup_eq_none_iff u k).mp h)]
  exact alookup_dictUpdate_nil b k hb

/-! ## Claim C6: which sections are parent-overlaid -/

/-- C6 counterexample.  The claim says every section among build, package,
app, extra, test, files, source, features is the parent's section overlaid
with `d`'s own keys.  At this concrete input the parent carries a `files`
section and `d` none, yet the constructed Output's files section is empty
— the parent's files never survive; and `d` carries a `features`
declaration of its own, yet the constructed features section (taken solely
from the parent) drops it. -/
theorem claim_c6_counterexample :
    pC6.files = some (Val.str "pf")
    ∧ dC6.files = none
    ∧ (Output.init dC6 {} pC6 [] []).1.sections.files = none
    ∧ dC6.features = [{ name := "g", default := true }]
    ∧ (Output.init dC6 {} pC6 [] []).1.sections.features = [] := by
  refine ⟨by decide, by decide, by decide, by decide, by decide⟩

/-- C6 amended.  The per-key parent-overlay holds exactly for the build,
package, app, extra and test sections (for Python-dict inputs, i.e. with
nodup keys): every key of `d`'s section keeps `d`'s value and every key
only in the parent's section keeps the parent's value.  The remaining
sections are not overlays: `files` is taken solely from `d`, `source` is
`d`'s whole record falling back to the parent's whole record, and
`features` is taken solely from the parent (with activation resolved). -/
theorem claim_c6 (d : RawRecord) (config : Config) (p : Parent)
    (cbc : List (String × String)) (sf : List (String × Bool))
    (hd1 : keysNodup d.build) (hp1 : keysNodup p.build)
    (hd2 : keysNodup (d.package.getD [])) (hp2 : keysNodup p.package)
    (hd3 : keysNodup d.app) (hp3 : keysNodup p.app)
    (hd4 : keysNodup d.extra) (hp4 : keysNodup p.extra)
    (hd5 : keysNodup d.test) (hp5 : keysNodup p.test) :
    (∀ k v, alookup d.build k = some v →
        alookup (Output.init d config p cbc sf).1.sections.build k = some v)
    ∧ (∀ k, alookup d.build k = none →
        alookup (Output.init d config p cbc sf).1.sections.build k = alookup p.build k)
    ∧ (∀ k v, alookup (d.package.getD []) k = some v →
        alookup (Output.init d config p cbc sf).1.sections.package k = some v)
    ∧ (∀ k, alookup (d.package.getD []) k = none →
        alookup (Output.init d config p cbc sf).1.sections.package k = alookup p.package k)
    ∧ (∀ k v, alookup d.app k = some v →
        alookup (Output.init d config p cbc sf).1.sections.app k = some v)
    ∧ (∀ k, alookup d.app k = none →
        alookup (Output.init d config p cbc sf).1.sections.app k = alookup p.app k)
    ∧ (∀ k v, alookup d.extra k = some v →
        alookup (Output.init d config p cbc sf).1.sections.extra k = some v)
    ∧ (∀ k, alookup d.extra k = none →
        alookup (Output.init d config p cbc sf).1.sections.extra k = alookup p.extra k)
    ∧ (∀ k v, alookup d.test k = some v →
        alookup (Output.init d config p cbc sf).1.sections.test k = some v)
    ∧ (∀ k, alookup d.test k = none →
        alookup (Output.init d config p cbc sf).1.sections.test k = alookup p.test k)
    ∧ (Output.init d config p cbc sf).1.sections.files = d.files
    ∧ (Output.init d config p cbc sf).1.sections.source =
        (match (d.source.orElse (fun _ => p.source)).getD (SourceV.one []) with
          | .one m => [m]
          | .many ms => ms)
    ∧ (Output.init d config p cbc sf).1.sections.features = setActivated sf p.features := by
  have hb : (Output.init d config p cbc sf).1.sections.build =
      dictUpdate (dictUpdate [] p.build) d.build := rfl
  have hpk : (Output.init d config p cbc sf).1.sections.package =
      dictUpdate (dictUpdate [] p.package) (d.package.getD []) := rfl
  have hap : (Output.init d config p cbc sf).1.sections.app =
      dictUpdate (dictUpdate [] p.app) d.app := rfl
  have hex : (Output.init d config p cbc sf).1.sections.extra =
      dictUpdate (dictUpdate [] p.extra) d.extra := rfl
  have hte : (Output.init d config p cbc sf).1.sections.test =
      dictUpdate (dictUpdate [] p.test) d.test := rfl
  refine ⟨?_, ?_, ?_, ?_, ?_, ?_, ?_, ?_, ?_, ?_, rfl, rfl, rfl⟩
  · intro k v h
    rw [hb]
    exact overlay_lookup_left p.build d.build hd1 k v h
  · intro k h
    rw [hb]
    exact overlay_lookup_right p.build d.build hp1 k h
  · intro k v h
    rw [hpk]
    exact overlay_lookup_left p.package (d.package.getD []) hd2 k v h
  · intro k h
    rw [hpk]
    exact overlay_lookup_right p.package (d.package.getD []) hp2 k h
  · intro k v h
    rw [hap]
    exact overlay_lookup_left p.app d.app hd3 k v h
  · intro k h
    rw [hap]
    exact overlay_lookup_right p.app d.app hp3 k h
  · intro k v h
    rw [hex]
    exact overlay_lookup_left p.extra d.extra hd4 k v h
  · intro k h
    rw [hex]
    exact overlay_lookup_right p.extra d.extra hp4 k h
  · intro k v h
    rw [hte]
    exact overlay_lookup_left p.test d.test hd5 k v h
  · intro k h
    rw [hte]
    exact overlay_lookup_right p.test d.test hp5 k h

/-- C6 witness: at a concrete record and parent, the merged build section
keeps `d`'s value for the shared key `a` and the parent's value for the
parent-only key `b`. -/
theorem claim_c6_witness :
    alookup (Output.init dC6 {} pC6 [] []).1.sections.build "a" = some (Val.str "1")
    ∧ alookup (Output.init dC6 {} pC6 [] []).1.sections.build "b" = alookup pC6.build "b" := by
  have h := claim_c6 dC6 {} pC6 [] [] (by decide) (by decide) (by decide) (by decide)
    (by decide) (by decide) (by decide) (by decide) (by decide) (by decide)
  exact ⟨h.1 "a" (Val.str "1") (by decide), h.2.1 "b" (by decide)⟩

/-! ## Claim C5: side effects of `Output.__init__` on `d` and `parent` -/

/-- C5 counterexample.  Constructing an Output is not free of side effects
on its inputs: at this concrete input the raw record gains a `source` key,
its authored build requirement list is extended in place with the
activated feature's requirement, and the parent's feature entry gains an
`activated` key. -/
theorem claim_c5_counterexample :
    dC5.source = none
    ∧ (Output.init dC5 {} pC5 [] []).2.1.source = some (SourceV.one [])
    ∧ dC5.requirements = some [("build", ["zlib"])]
    ∧ (Output.init dC5 {} pC5 [] []).2.1.requirements = some [("build", ["zlib", "boost"])]
    ∧ pC5.features.map (fun f => f.activated) = [none]
    ∧ (Output.init dC5 {} pC5 [] []).2.2.features.map (fun f => f.activated) = [some true]
    ∧ (Output.init dC5 {} pC5 [] []).2.1 ≠ dC5
    ∧ (Output.init dC5 {} pC5 [] []).2.2 ≠ pC5 := by
  refine ⟨by decide, by decide, by decide, by decide, by decide, by decide, by decide,
    by decide⟩

/-- C5 amended.  The construction's only side effects are the `source` key
written into `d`, the in-place extension of `d`'s requirement lists with
activated features' contributions, and the `activated` key written onto
the parent's feature entries: when `d` already has a `source` key and the
parent declares no features, both post-states are unchanged. -/
theorem claim_c5 (d : RawRecord) (config : Config) (p : Parent)
    (cbc : List (String × String)) (sf : List (String × Bool))
    (hsrc : d.source.isSome = true) (hfeat : p.features = []) :
    (Output.init d config p cbc sf).2.1 = d
    ∧ (Output.init d config p cbc sf).2.2 = p := by
  obtain ⟨sn, pk, bd, ap, ex, te, fi, so, rq, fe⟩ := d
  obtain ⟨pb, pp, pa, pe2, pt, ps, pf, pfe⟩ := p
  simp only at hfeat
  subst hfeat
  rcases so with _ | sv
  · simp at hsrc
  · constructor
    · show (⟨sn, pk, bd, ap, ex, te, fi, some sv,
          rq.map (fun m => m.map (fun q =>
            if q.1 ∈ envKeys then
              (q.1, q.2 ++ featAdd (buildFeatureMap sf []) q.1)
            else q)), fe⟩ : RawRecord)
        = ⟨sn, pk, bd, ap, ex, te, fi, some sv, rq, fe⟩
      have hmap : rq.map (fun m => m.map (fun q =>
          if q.1 ∈ envKeys then
            (q.1, q.2 ++ featAdd (buildFeatureMap sf []) q.1)
          else q)) = rq := by
        rcases rq with _ | m
        · rfl
        · have helem : ∀ q : String × List String,
              (if q.1 ∈ envKeys then
                (q.1, q.2 ++ featAdd (buildFeatureMap sf []) q.1)
              else q) = q := by
            intro q
            have hfa : featAdd (buildFeatureMap sf []) q.1 = [] := rfl
            rw [hfa, List.append_nil]
            simp
          show some (m.map _) = some m
          rw [List.map_congr_left (fun a _ => helem a), List.map_id']
      rw [hmap]
    · rfl

/-- C5 witness: a record that already has a `source` key, constructed with
a featureless parent, is unchanged, and so is the parent. -/
theorem claim_c5_witness :
    (Output.init dC5w {} {} [] []).2.1 = dC5w
    ∧ (Output.init dC5w {} {} [] []).2.2 = ({} : Parent) :=
  claim_c5 dC5w {} {} [] [] (by decide) (by decide)

/-! ## Claim C1: lemmas about binding the solver result -/

theorem listModify_getElem {α : Type} (f : α → α) :
    ∀ (l : List α) (n i : Nat), (listModify f l n)[i]? =
      if n = i then (l[i]?).map f else l[i]? := by
  intro l
  induction l with
  | nil =>
      intro n i
      cases n <;> simp [listModify]
  | cons a rest ih =>
      intro n i
      cases n with
      | zero =>
          cases i with
          | zero => simp [listModify]
          | succ j => simp [listModify]
      | succ n' =>
          cases i with
          | zero => simp [listModify]
          | succ j =>
              simp only [listModify, List.getElem?_cons_succ, ih n' j,
                Nat.add_right_cancel_iff]

theorem listModify_length {α : Type} (f : α → α) :
    ∀ (l : List α) (n : Nat), (listModify f l n).length = l.length := by
  intro l
  induction l with
  | nil => intro n; cases n <;> rfl
  | cons a rest ih =>
      intro n
      cases n with
      | zero => rfl
      | succ n' => simp [listModify, ih n']

theorem lastIdx_lt {α : Type} {p : α → Bool} :
    ∀ {l : List α} {i : Nat}, lastIdx p l = some i → i < l.length := by
  intro l
  induction l with
  | nil => intro i h; simp [lastIdx] at h
  | cons a rest ih =>
      intro i h
      rcases hr : lastIdx p rest with _ | j
      · rw [lastIdx, hr] at h
        by_cases hp : p a = true
        · rw [if_pos hp] at h
          injection h with h
          subst h
          simp
        · rw [if_neg hp] at h
          cases h
      · rw [lastIdx, hr] at h
        injection h with h
        subst h
        have := ih hr
        simp only [List.length_cons]
        omega

theorem lastIdx_eq_none {α : Type} {p : α → Bool} :
    ∀ {l : List α}, (∀ x ∈ l, p x = false) → lastIdx p l = none := by
  intro l
  induction l with
  | nil => intro _; rfl
  | cons a rest ih =>
      intro h
      rw [lastIdx, ih (fun x hx => h x (List.mem_cons_of_mem a hx)),
        h a (List.mem_cons_self a rest)]
      rfl

theorem lastIdx_last {α : Type} (f : α → String) :
    ∀ (l : List α) (i : Nat) (s : α), l[i]? = some s →
      (∀ j t, i < j → l[j]? = some t → f t ≠ f s) →
      lastIdx (fun t => f t == f s) l = some i := by
  intro l
  induction l with
  | nil => intro i s h _; simp at h
  | cons a rest ih =>
      intro i s h hafter
      cases i with
      | zero =>
          rw [List.getElem?_cons_zero] at h
          injection h with h
          subst h
          have hnone : lastIdx (fun t => f t == f a) rest = none := by
            apply lastIdx_eq_none
            intro x hx
            obtain ⟨k, hk⟩ := List.getElem?_of_mem hx
            have hne : f x ≠ f a :=
              hafter (k + 1) x (Nat.succ_pos k)
                (by rw [List.getElem?_cons_succ]; exact hk)
            simp [hne]
          rw [lastIdx, hnone]
          simp
      | succ j =>
          rw [List.getElem?_cons_succ] at h
          have hrest : ∀ k t, j < k → rest[k]? = some t → f t ≠ f s := by
            intro k t hjk hkt
            exact hafter (k + 1) t (Nat.succ_lt_succ hjk)
              (by rw [List.getElem?_cons_succ]; exact hkt)
          rw [lastIdx, ih j s h hrest]

theorem bindOne_length (orig st : List CondaBuildSpec) (p : PkgRec) :
    st.length ≤ (bindOne orig st p).length := by
  unfold bindOne
  rcases hcase : lastIdx (fun s => s.final_name == p.name) orig with _ | i
  · rw [hcase]
    simp
  · rw [hcase, listModify_length]

theorem bindOne_bound_preserve (orig st : List CondaBuildSpec) (p : PkgRec) (i : Nat)
    (h : ∀ s, st[i]? = some s → s.final_version.isSome = true) :
    ∀ s, (bindOne orig st p)[i]? = some s → s.final_version.isSome = true := by
  unfold bindOne
  rcases hcase : lastIdx (fun s => s.final_name == p.name) orig with _ | j
  · rw [hcase]
    intro s hs
    rw [List.getElem?_append] at hs
    by_cases hlt : i < st.length
    · rw [if_pos hlt] at hs
      exact h s hs
    · rw [if_neg hlt] at hs
      rcases hd : i - st.length with _ | m
      · rw [hd, List.getElem?_cons_zero] at hs
        injection hs with hs
        subst hs
        rfl
      · rw [hd, List.getElem?_cons_succ] at hs
        simp at hs
  · rw [hcase]
    intro s hs
    rw [listModify_getElem] at hs
    by_cases hji : j = i
    · rw [if_pos hji] at hs
      rcases ho : st[i]? with _ | t
      · rw [ho] at hs
        simp at hs
      · rw [ho] at hs
        injection hs with hs
        subst hs
        rfl
    · rw [if_neg hji] at hs
      exact h s hs

theorem bindOne_binds (orig st : List CondaBuildSpec) (p : PkgRec) (i : Nat)
    (hlast : lastIdx (fun s => s.final_name == p.name) orig = some i)
    (hlen : i < st.length) :
    ∀ s, (bindOne orig st p)[i]? = some s → s.final_version.isSome = true := by
  unfold bindOne
  rw [hlast]
  intro s hs
  rw [listModify_getElem, if_pos rfl] at hs
  rcases ho : st[i]? with _ | t
  · rw [ho] at hs
    simp at hs
  · rw [ho] at hs
    injection hs with hs
    subst hs
    rfl

theorem bindFold_length (orig : List CondaBuildSpec) :
    ∀ (installs : List PkgRec) (st : List CondaBuildSpec),
      st.length ≤ (installs.foldl (bindOne orig) st).length := by
  intro installs
  induction installs with
  | nil => intro st; exact Nat.le_refl _
  | cons q rest ih =>
      intro st
      rw [List.foldl_cons]
      exact Nat.le_trans (bindOne_length orig st q) (ih (bindOne orig st q))

theorem bindFold_preserve (orig : List CondaBuildSpec) :
    ∀ (installs : List PkgRec) (st : List CondaBuildSpec) (i : Nat),
      (∀ s, st[i]? = some s → s.final_version.isSome = true) →
      ∀ s, (installs.foldl (bindOne orig) st)[i]? = some s →
        s.final_version.isSome = true := by
  intro installs
  induction installs with
  | nil => intro st i h; exact h
  | cons q rest ih =>
      intro st i h
      rw [List.foldl_cons]
      exact ih (bindOne orig st q) i (bindOne_bound_preserve orig st q i h)

theorem bindFold_binds (orig : List CondaBuildSpec) :
    ∀ (installs : List PkgRec) (st : List CondaBuildSpec) (i : Nat) (p : PkgRec),
      p ∈ installs →
      lastIdx (fun s => s.final_name == p.name) orig = some i →
      i < st.length →
      ∀ s, (installs.foldl (bindOne orig) st)[i]? = some s →
        s.final_version.isSome = true := by
  intro installs
  induction installs with
  | nil => intro st i p hp; cases hp
  | cons q rest ih =>
      intro st i p hp hlast hlen
      rw [List.foldl_cons]
      rcases List.mem_cons.mp hp with hpq | hpr
      · subst hpq
        exact bindFold_preserve orig rest (bindOne orig st p) i
          (bindOne_binds orig st p i hlast hlen)
      · exact ih (bindOne orig st q) i p hpr hlast
          (Nat.lt_of_lt_of_le hlen (bindOne_length orig st q))

theorem bindOne_tail (orig st : List CondaBuildSpec) (p : PkgRec)
    (h : ∀ j s, orig.length ≤ j → st[j]? = some s → s.final_version.isSome = true) :
    ∀ j s, orig.length ≤ j → (bindOne orig st p)[j]? = some s →
      s.final_version.isSome = true := by
  intro j s hj hs
  revert hs
  unfold bindOne
  rcases hcase : lastIdx (fun t => t.final_name == p.name) orig with _ | i
  · rw [hcase]
    intro hs
    rw [List.getElem?_append] at hs
    by_cases hlt : j < st.length
    · rw [if_pos hlt] at hs
      exact h j s hj hs
    · rw [if_neg hlt] at hs
      rcases hd : j - st.length with _ | m
      · rw [hd, List.getElem?_cons_zero] at hs
        injection hs with hs
        subst hs
        rfl
      · rw [hd, List.getElem?_cons_succ] at hs
        simp at hs
  · rw [hcase]
    intro hs
    rw [listModify_getElem] at hs
    have hij : i ≠ j := by
      have := lastIdx_lt hcase
      omega
    rw [if_neg hij] at hs
    exact h j s hj hs

theorem bindFold_tail (orig : List CondaBuildSpec) :
    ∀ (installs : List PkgRec) (st : List CondaBuildSpec),
      (∀ j s, orig.length ≤ j → st[j]? = some s → s.final_version.isSome = true) →
      ∀ j s, orig.length ≤ j → (installs.foldl (bindOne orig) st)[j]? = some s →
        s.final_version.isSome = true := by
  intro installs
  induction installs with
  | nil => intro st h; exact h
  | cons q rest ih =>
      intro st h
      rw [List.foldl_cons]
      exact ih (bindOne orig st q) (bindOne_tail orig st q h)

theorem bindOne_name (orig st : List CondaBuildSpec) (p : PkgRec) (i : Nat)
    (s : CondaBuildSpec) (h : st[i]? = some s) :
    ∃ t, (bindOne orig st p)[i]? = some t ∧ t.final_name = s.final_name := by
  have hlt : i < st.length := by
    by_cases h1 : i < st.length
    · exact h1
    · rw [List.getElem?_eq_none (Nat.le_of_not_lt h1)] at h
      cases h
  unfold bindOne
  rcases hcase : lastIdx (fun t => t.final_name == p.name) orig with _ | j
  · rw [hcase]
    refine ⟨s, ?_, rfl⟩
    rw [List.getElem?_append, if_pos hlt]
    exact h
  · rw [hcase, listModify_getElem]
    by_cases hji : j = i
    · rw [if_pos hji, h]
      exact ⟨_, rfl, rfl⟩
    · rw [if_neg hji]
      exact ⟨s, h, rfl⟩

theorem bindFold_name (orig : List CondaBuildSpec) :
    ∀ (installs : List PkgRec) (st : List CondaBuildSpec) (i : Nat)
      (s : CondaBuildSpec), st[i]? = some s →
      ∃ t, (installs.foldl (bindOne orig) st)[i]? = some t
        ∧ t.final_name = s.final_name := by
  intro installs
  induction installs with
  | nil => intro st i s h; exact ⟨s, h, rfl⟩
  | cons q rest ih =>
      intro st i s h
      rw [List.foldl_cons]
      obtain ⟨t, ht, htn⟩ := bindOne_name orig st q i s h
      obtain ⟨u, hu, hun⟩ := ih (bindOne orig st q) i t ht
      exact ⟨u, hu, by rw [hun, htn]⟩

theorem bindInstalls_lastBound (specs : List CondaBuildSpec) (installs : List PkgRec)
    (hcov : ∀ s ∈ specs, ∃ p ∈ installs, p.name = s.final_name) :
    lastBound (bindInstalls specs installs) := by
  unfold lastBound bindInstalls
  intro i s hs hsh
  by_cases hlt : i < specs.length
  · have hs0 : specs[i]? = some specs[i] := List.getElem?_eq_getElem hlt
    obtain ⟨p, hp, hpn⟩ := hcov specs[i] (List.getElem_mem hlt)
    have hsn : s.final_name = specs[i].final_name := by
      obtain ⟨v, hv, hvn⟩ := bindFold_name specs installs specs i specs[i] hs0
      have h2 : some v = some s := hv.symm.trans hs
      injection h2 with h2
      rw [← h2]
      exact hvn
    have hlastname : ∀ j t, i < j → specs[j]? = some t →
        t.final_name ≠ specs[i].final_name := by
      intro j t hij hjt
      obtain ⟨u, hu, hun⟩ := bindFold_name specs installs specs j t hjt
      have hne := hsh j u hij hu
      rw [hun, hsn] at hne
      exact hne
    have hlast : lastIdx (fun t => t.final_name == p.name) specs = some i := by
      have h0 := lastIdx_last (fun t => t.final_name) specs i specs[i] hs0 hlastname
      rw [hpn]
      exact h0
    exact bindFold_binds specs installs specs i p hp hlast hlt s hs
  · apply bindFold_tail specs installs specs ?_ i s (Nat.le_of_not_lt hlt) hs
    intro j t hj ht
    rw [List.getElem?_eq_none hj] at ht
    cases ht

/-! ## Claim C1: lemmas about the per-environment solve -/

theorem route_preserves_build (n : Bool) (env : EnvName) (c : List RunExportsInfo)
    (rq : EnvReqs) : (route n env c rq).build = rq.build := by
  cases env with
  | build =>
      cases n with
      | false => rw [route_build_false, foldBuildRex_build]
      | true => rw [route_build_true]
  | host =>
      cases n with
      | false => rw [route_host_false, foldHostRex_build]
      | true => rw [route_host_true, foldNoarchRex_build]
  | run => rw [route_run_id]
  | run_constrained => rw [route_rc_id]

theorem route_getEnv_own (n : Bool) (env : EnvName) (c : List RunExportsInfo)
    (r : EnvReqs) (Y : List CondaBuildSpec) :
    getEnv (route n env c (setEnv r env Y)) env = Y := by
  rw [route_setEnv_splice n env c r Y Y, getEnv_setEnv]

theorem collectStep_final_version (cfgPins : List (String × String))
    (ignore : List String) (ext : Ext) (pc : String) (s : CondaBuildSpec) :
    ((collectStep cfgPins ignore ext pc s).1).final_version = s.final_version := by
  unfold collectStep
  cases htr : s.is_transitive_dependency
  · cases hig : ignore.contains s.name
    · rcases hfv : s.final_version with _ | fv
      · simp [htr, hig, hfv]
      · rcases hpin : alookup cfgPins (dashToUnderscore s.name) with _ | pcfg
        · rcases hre : ext.read_run_exports pc s.final_triplet with _ | info <;>
            simp [htr, hig, hfv, hpin, hre]
        · simp [htr, hig, hfv, hpin]
    · simp [htr, hig]
  · simp [htr]

theorem collectStep_final_name (cfgPins : List (String × String))
    (ignore : List String) (ext : Ext) (pc : String) (s : CondaBuildSpec) :
    ((collectStep cfgPins ignore ext pc s).1).final_name = s.final_name := by
  unfold collectStep
  cases htr : s.is_transitive_dependency
  · cases hig : ignore.contains s.name
    · rcases hfv : s.final_version with _ | fv
      · simp [htr, hig, hfv]
      · rcases hpin : alookup cfgPins (dashToUnderscore s.name) with _ | pcfg
        · rcases hre : ext.read_run_exports pc s.final_triplet with _ | info <;>
            simp [htr, hig, hfv, hpin, hre]
        · simp [htr, hig, hfv, hpin]
    · simp [htr, hig]
  · simp [htr]

theorem lastBound_map (l : List CondaBuildSpec) (f : CondaBuildSpec → CondaBuildSpec)
    (hv : ∀ s, (f s).final_version = s.final_version)
    (hn : ∀ s, (f s).final_name = s.final_name)
    (h : lastBound l) : lastBound (l.map f) := by
  intro i s hs hsh
  rw [List.getElem?_map] at hs
  rcases hl : l[i]? with _ | t
  · rw [hl] at hs
    simp at hs
  · rw [hl, Option.map_some'] at hs
    injection hs with hs
    have hres : t.final_version.isSome = true := by
      apply h i t hl
      intro j u hij hju
      have hmj : (l.map f)[j]? = some (f u) := by
        rw [List.getElem?_map, hju, Option.map_some']
      have hne := hsh j (f u) hij hmj
      rw [hn u] at hne
      have hs2 : s.final_name = t.final_name := by
        rw [← hs]
        exact hn t
      rw [hs2] at hne
      exact hne
    rw [← hs, hv]
    exact hres

theorem propagate_env_lastBound (o : Output) (ext : Ext) (env : EnvName) (pc : String)
    (h : lastBound (getEnv o.requirements env)) :
    lastBound (getEnv (o.propagate_run_exports ext env pc).requirements env) := by
  have hreq : getEnv (o.propagate_run_exports ext env pc).requirements env =
      (collectPhase o.conda_build_config o.ignoreRunExports ext pc
        (getEnv o.requirements env)).1 := by
    show getEnv (route o.noarch env
      (collectPhase o.conda_build_config o.ignoreRunExports ext pc
        (getEnv o.requirements env)).2
      (setEnv o.requirements env
        (collectPhase o.conda_build_config o.ignoreRunExports ext pc
          (getEnv o.requirements env)).1)) env = _
    exact route_getEnv_own o.noarch env _ o.requirements _
  rw [hreq]
  have hphase : (collectPhase o.conda_build_config o.ignoreRunExports ext pc
      (getEnv o.requirements env)).1 =
      (getEnv o.requirements env).map
        (fun x => (collectStep o.conda_build_config o.ignoreRunExports ext pc x).1) := by
    unfold collectPhase
    rw [List.map_map]
    rfl
  rw [hphase]
  exact lastBound_map _ _
    (fun s => collectStep_final_version o.conda_build_config o.ignoreRunExports ext pc s)
    (fun s => collectStep_final_name o.conda_build_config o.ignoreRunExports ext pc s) h

theorem solve_env_ok (o : Output) (ext : Ext) (env : EnvName) (o' : Output)
    (h : o.solve_env ext env = .ok o') :
    ((getEnv o.requirements env).isEmpty = true ∧ o' = o)
    ∨ (∃ dreqs, o.data.requirements = some dreqs
        ∧ o' = (if env == .build || env == .host then
            Output.propagate_run_exports (solvedOutput o ext env dreqs) ext env
              (ext.pkg_cache (subdirFor o env))
          else solvedOutput o ext env dreqs)) := by
  unfold Output.solve_env at h
  by_cases hemp : (getEnv o.requirements env).isEmpty = true
  · rw [if_pos hemp] at h
    injection h with h
    exact Or.inl ⟨hemp, h.symm⟩
  · rw [if_neg hemp] at h
    rcases hdr : o.data.requirements with _ | dreqs
    · rw [hdr] at h
      cases h
    · rw [hdr] at h
      rcases hfo : (ext.solve (subdirFor o env)
          ((evalSpecs ext env o).map (·.final))).fetch_ok
      · rw [hfo] at h
        simp at h
      · rw [hfo] at h
        simp only [Bool.not_true, Bool.false_eq_true, if_false] at h
        injection h with h
        exact Or.inr ⟨dreqs, rfl, h.symm⟩

theorem solvedOutput_env (o : Output) (ext : Ext) (env : EnvName)
    (dreqs : List (String × List String)) :
    getEnv (solvedOutput o ext env dreqs).requirements env =
      bindInstalls (evalSpecs ext env o)
        (ext.solve (subdirFor o env) ((evalSpecs ext env o).map (·.final))).installs := by
  show getEnv (setEnv o.requirements env _) env = _
  rw [getEnv_setEnv]

theorem solve_env_env_lastBound (o : Output) (ext : Ext) (env : EnvName) (o' : Output)
    (hst : stage_cov ext env o) (h : o.solve_env ext env = .ok o') :
    lastBound (getEnv o'.requirements env) := by
  rcases solve_env_ok o ext env o' h with ⟨hemp, ho⟩ | ⟨dreqs, _, ho'⟩
  · subst ho
    intro i s hs hsh
    rw [List.isEmpty_iff.mp hemp] at hs
    simp at hs
  · have hbound : lastBound (getEnv (solvedOutput o ext env dreqs).requirements env) := by
      rw [solvedOutput_env]
      exact bindInstalls_lastBound _ _ hst
    subst ho'
    by_cases henv : (env == EnvName.build || env == EnvName.host) = true
    · rw [if_pos henv]
      exact propagate_env_lastBound (solvedOutput o ext env dreqs) ext env _ hbound
    · rw [if_neg henv]
      exact hbound

theorem propagate_preserves_build_list (o : Output) (ext : Ext) (env : EnvName)
    (pc : String) (henv : env ≠ .build) :
    (o.propagate_run_exports ext env pc).requirements.build = o.requirements.build := by
  show (route o.noarch env
      (collectPhase o.conda_build_config o.ignoreRunExports ext pc
        (getEnv o.requirements env)).2
      (setEnv o.requirements env
        (collectPhase o.conda_build_config o.ignoreRunExports ext pc
          (getEnv o.requirements env)).1)).build = o.requirements.build
  rw [route_preserves_build]
  cases env with
  | build => exact absurd rfl henv
  | host => rfl
  | run => rfl
  | run_constrained => rfl

theorem solve_env_host_preserves_build (o : Output) (ext : Ext) (o' : Output)
    (h : o.solve_env ext .host = .ok o') :
    o'.requirements.build = o.requirements.build := by
  rcases solve_env_ok o ext .host o' h with ⟨_, ho⟩ | ⟨dreqs, _, ho'⟩
  · subst ho
    rfl
  · subst ho'
    rw [if_pos (by rfl)]
    rw [propagate_preserves_build_list _ ext .host _ (by intro hc; cases hc)]
    rfl

theorem solve_env_run_preserves (o : Output) (ext : Ext) (o' : Output)
    (h : o.solve_env ext .run = .ok o') :
    o'.requirements.build = o.requirements.build
    ∧ o'.requirements.host = o.requirements.host := by
  rcases solve_env_ok o ext .run o' h with ⟨_, ho⟩ | ⟨dreqs, _, ho'⟩
  · subst ho
    exact ⟨rfl, rfl⟩
  · subst ho'
    rw [if_neg (by decide)]
    exact ⟨rfl, rfl⟩

theorem backfillLoop_reqs :
    ∀ (l : List CondaBuildSpec) (o o' : Output), backfillLoop l o = .ok o' →
      o'.requirements = o.requirements := by
  intro l
  induction l with
  | nil =>
      intro o o' h
      injection h with h
      rw [← h]
  | cons r rest ih =>
      intro o o' h
      unfold backfillLoop at h
      rcases hfv : r.final_version with _ | fv
      · rw [hfv] at h
        cases h
      · rw [hfv] at h
        exact ih { o with config := { o.config with
          variant := aset o.config.variant "python" fv.1 } } o' h

theorem backfillPython_reqs (ext : Ext) (o o' : Output)
    (h : backfillPython ext o = .ok o') : o'.requirements = o.requirements := by
  unfold backfillPython at h
  by_cases hv : (alookup o.config.variant "python").isSome = true
  · rw [if_pos hv] at h
    injection h with h
    rw [← h]
  · rw [if_neg hv] at h
    rcases hbl : backfillLoop
        ((o.requirements.build ++ o.requirements.host).filter
          (fun r => r.name == "python")) o with e | o1
    · rw [hbl] at h
      cases h
    · rw [hbl] at h
      have h1 := backfillLoop_reqs _ o o1 hbl
      have h' : (if (alookup o1.config.variant "python").isNone = true then
          Except.ok { o1 with config := { o1.config with
            variant := aset o1.config.variant "python" ext.sys_version } }
        else Except.ok o1) = Except.ok o' := h
      by_cases h2 : (alookup o1.config.variant "python").isNone = true
      · rw [if_pos h2] at h'
        injection h' with h'
        rw [← h']
        exact h1
      · rw [if_neg h2] at h'
        injection h' with h'
        rw [← h']
        exact h1

theorem finalize_ok (o : Output) (ext : Ext) (o' : Output)
    (h : o.finalize_solve ext = .ok o') :
    ∃ o1 o2 o3 o4,
      o.solve_env ext .build = .ok o1 ∧ o1.solve_env ext .host = .ok o2
      ∧ o2.solve_env ext .run = .ok o3 ∧ backfillPython ext o3 = .ok o4
      ∧ o' = { o4 with variant := some o4.config.variant } := by
  unfold Output.finalize_solve at h
  rcases hb : o.solve_env ext .build with e | o1 <;> rw [hb] at h
  · cases h
  · have h1 : (match o1.solve_env ext .host with
        | .error e => (Except.error e : Except String Output)
        | .ok o2 =>
            match o2.solve_env ext .run with
            | .error e => .error e
            | .ok o3 =>
                match backfillPython ext o3 with
                | .error e => .error e
                | .ok o4 => .ok { o4 with variant := some o4.config.variant })
        = .ok o' := h
    rcases hh : o1.solve_env ext .host with e | o2 <;> rw [hh] at h1
    · cases h1
    · have h2 : (match o2.solve_env ext .run with
          | .error e => (Except.error e : Except String Output)
          | .ok o3 =>
              match backfillPython ext o3 with
              | .error e => .error e
              | .ok o4 => .ok { o4 with variant := some o4.config.variant })
          = .ok o' := h1
      rcases hr : o2.solve_env ext .run with e | o3 <;> rw [hr] at h2
      · cases h2
      · have h3 : (match backfillPython ext o3 with
            | .error e => (Except.error e : Except String Output)
            | .ok o4 => .ok { o4 with variant := some o4.config.variant })
            = .ok o' := h2
        rcases hbf : backfillPython ext o3 with e | o4 <;> rw [hbf] at h3
        · cases h3
        · injection h3 with h3
          exact ⟨o1, o2, o3, o4, rfl, hh, hr, hbf, h3.symm⟩

/-- C1 counterexample.  Three successful `finalize_solve` runs each leave
a Spec with no bound `final_version`, refuting the claim as stated and
forcing, one each, the qualifications of the amendment: (1) a non-empty
`run_constrained` list survives unbound, because `finalize_solve` only
ever solves build, host and run; (2) with two authored build Specs of the
same name, the name-keyed `spec_map` binds only the last one, and the
first stays unbound even though the solve completes successfully; (3)
when the external solver reports success with an install list that does
not cover a requested name, that Spec likewise stays unbound, so the
amendment's solver-coverage hypothesis is a necessary contract on the
collaborator. -/
theorem claim_c1_counterexample :
    (oC1cex.finalize_solve extEx = .ok oC1cexFinal
      ∧ oC1cexFinal.requirements.run_constrained ≠ []
      ∧ oC1cexFinal.requirements.run_constrained.all
          (fun s => s.final_version.isNone) = true)
    ∧ (oC1dup.finalize_solve extDup = .ok oC1dupFinal
      ∧ oC1dupFinal.requirements.build.map (fun s => s.final_version.isSome)
          = [false, true])
    ∧ (oC1w.finalize_solve extNoCov = .ok oC1ncFinal
      ∧ oC1ncFinal.requirements.build ≠ []
      ∧ oC1ncFinal.requirements.build.all
          (fun s => s.final_version.isNone) = true) := by
  exact ⟨⟨rfl, by decide, by decide⟩, ⟨rfl, by decide⟩, ⟨rfl, by decide, by decide⟩⟩

/-- C1 amended.  After a successful `finalize_solve`, in each of the
build, host and run requirement lists, every Spec that is not followed by
a later Spec with the same resolved name has a bound `final_version`;
this covers every solver-appended transitive Spec and, whenever the
authored names are distinct, every authored Spec.  The hypotheses are the
solver contract: at each of the three stages the external solver's
install list covers every requested Spec's resolved name.  The two
exclusions are exactly the counterexample's failures: `run_constrained`
Specs are never solved, and an authored Spec shadowed by a later
same-named Spec is not a binding target of the name-keyed `spec_map` and
stays unbound. -/
theorem claim_c1 (ext : Ext) (o o' : Output)
    (h1 : stage_cov ext .build o)
    (h2 : ∀ o1, o.solve_env ext .build = .ok o1 → stage_cov ext .host o1)
    (h3 : ∀ o1 o2, o.solve_env ext .build = .ok o1 → o1.solve_env ext .host = .ok o2 →
        stage_cov ext .run o2)
    (hfin : o.finalize_solve ext = .ok o') :
    lastBound o'.requirements.build ∧ lastBound o'.requirements.host
    ∧ lastBound o'.requirements.run := by
  obtain ⟨o1, o2, o3, o4, hb, hh, hr, hbf, ho'⟩ := finalize_ok o ext o' hfin
  have hreq : o'.requirements = o3.requirements := by
    rw [ho']
    show o4.requirements = o3.requirements
    exact backfillPython_reqs ext o3 o4 hbf
  have hb_bound : lastBound o1.requirements.build :=
    solve_env_env_lastBound o ext .build o1 h1 hb
  have hh_bound : lastBound o2.requirements.host :=
    solve_env_env_lastBound o1 ext .host o2 (h2 o1 hb) hh
  have hr_bound : lastBound o3.requirements.run :=
    solve_env_env_lastBound o2 ext .run o3 (h3 o1 o2 hb hh) hr
  have e1 : o2.requirements.build = o1.requirements.build :=
    solve_env_host_preserves_build o1 ext o2 hh
  have e2 := solve_env_run_preserves o2 ext o3 hr
  refine ⟨?_, ?_, ?_⟩
  · rw [hreq, e2.1, e1]
    exact hb_bound
  · rw [hreq, e2.2]
    exact hh_bound
  · rw [hreq]
    exact hr_bound

/-- C1 witness: a concrete Output with an authored build requirement,
solved against a concrete solver covering it, ends with every unshadowed
build, host and run Spec bound. -/
theorem claim_c1_witness :
    lastBound oC1wFinal.requirements.build ∧ lastBound oC1wFinal.requirements.host
    ∧ lastBound oC1wFinal.requirements.run :=
  claim_c1 extEx oC1w oC1wFinal (by decide)
    (fun o1 h => by
      have hb : Output.solve_env oC1w extEx .build = Except.ok oC1wB := rfl
      rw [hb] at h
      injection h with h
      subst h
      decide)
    (fun o1 o2 hb' hh' => by
      have hb : Output.solve_env oC1w extEx .build = Except.ok oC1wB := rfl
      rw [hb] at hb'
      injection hb' with hb'
      subst hb'
      have hh : Output.solve_env oC1wB extEx .host = Except.ok oC1wH := rfl
      rw [hh] at hh'
      injection hh' with hh'
      subst hh'
      decide)
    rfl

end Boa
